import Mathlib

/-!
# TM1637 two-wire display driver (`src/src/TM1637.c`)

Shallow embedding of the bit-banged driver.  The platform binding
(`TM1637_Handler_t`) is a table of callbacks; every callback is recorded as an
`Event` in a trace, in call order.  The only callback that returns a value is
`DioRead`; its result may depend on everything that happened on the bus so far,
so the handler is modelled by a function from the recorded trace to the level
read.  Driver functions pass the trace explicitly.

Machine integers: `uint8_t` values are `Nat` reduced modulo 256 where the C
code stores them, `int8_t` results are `Int` (only `0`, `-1`, `-2` occur).
Arguments of type `uint8_t` are `Nat`s; a caller passes values below 256.  A
`const uint8_t *` argument is the sequence of bytes it points to.

Statements about frames and bytes on the bus are made through a bus analyser
(`Monitor`, `observe`, `frames`) that decodes the recorded pin activity the way
a device on the two wires does.  All calls are studied on a fresh recorder
(empty trace); since `DioRead` may depend on the whole history this loses no
behaviour of the data line.
-/

namespace TM1637

/-! ## Constants (`#define`s of TM1637.c) -/

def DataCommandSetting : Nat := 0x40
def DisplayControl : Nat := 0x80
def AddressCommandSetting : Nat := 0xC0
def WriteDataToDisplayRegister : Nat := 0x00
def AutomaticAddressAdd : Nat := 0x00
def NormalMode : Nat := 0x00
def ShowTurnOff : Nat := 0x00
def ShowTurnOn : Nat := 0x08
def CommunicationDelayUs : Nat := 5
def MaxNumOfDigits : Nat := 6

/-! ## Platform binding and recorded bus activity -/

/-- One call of a callback of the platform binding. `DioRead` carries the
level the callback returned. -/
inductive Event where
  | DioConfigOut
  | DioConfigIn
  | DioWrite (level : Nat)
  | DioRead (level : Nat)
  | ClkWrite (level : Nat)
  | DelayUs (us : Nat)
  deriving DecidableEq, Repr

/-- Calls made so far, oldest first. -/
abbrev Trace := List Event

/-- The part of `TM1637_Handler_t` whose behaviour is not fixed by the driver:
what `DioRead` returns, given the bus history. -/
structure TM1637_Handler_t where
  DioRead : Trace → Nat

/-- Result type `TM1637_Result_t` (`TM1637_OK = 0`, `TM1637_FAIL = -1`). -/
inductive TM1637_Result_t where
  | TM1637_OK
  | TM1637_FAIL
  deriving DecidableEq, Repr

open TM1637_Result_t

def DioConfigOut (t : Trace) : Trace := t ++ [Event.DioConfigOut]
def DioConfigIn (t : Trace) : Trace := t ++ [Event.DioConfigIn]
def DioWrite (level : Nat) (t : Trace) : Trace := t ++ [Event.DioWrite level]
def ClkWrite (level : Nat) (t : Trace) : Trace := t ++ [Event.ClkWrite level]
def DelayUs (us : Nat) (t : Trace) : Trace := t ++ [Event.DelayUs us]

/-- Callback `Handler->DioRead()`: returns a `uint8_t` and is recorded with it. -/
def DioRead (Handler : TM1637_Handler_t) (t : Trace) : Nat × Trace :=
  (Handler.DioRead t % 256, t ++ [Event.DioRead (Handler.DioRead t % 256)])

/-! ## Private functions -/

/-- Function `TM1637_StartCommunication` (TM1637.c 102-110). -/
def TM1637_StartCommunication (t : Trace) : Trace :=
  t |> DioConfigOut
    |> DioWrite 1
    |> ClkWrite 1
    |> DelayUs CommunicationDelayUs
    |> DioWrite 0

/-- Function `TM1637_StopCommunication` (TM1637.c 112-125). -/
def TM1637_StopCommunication (t : Trace) : Trace :=
  t |> DioConfigOut
    |> ClkWrite 0
    |> DioWrite 0
    |> DelayUs CommunicationDelayUs
    |> ClkWrite 1
    |> DelayUs CommunicationDelayUs
    |> DioWrite 1

/-- The inner loop of `TM1637_WriteBytes` (TM1637.c 140-149),
`for (i = 0; i < 8; ++i)`; the first argument is the number of iterations
left, `8 - i`. -/
def WriteBytes_bits : Nat → Nat → Trace → Trace
  | 0, _, t => t
  | n + 1, Buff, t =>
    WriteBytes_bits n (Buff >>> 1)
      (t |> ClkWrite 0
         |> DioWrite (Buff &&& 0x01)
         |> DelayUs CommunicationDelayUs
         |> ClkWrite 1
         |> DelayUs CommunicationDelayUs)

/-- Lines 137-160 of one iteration of the outer loop of `TM1637_WriteBytes`:
the eight data bits of `Buff`, then the acknowledge clock. Returns `ack`. -/
def WriteBytes_byte (Handler : TM1637_Handler_t) (Buff : Nat) (t : Trace) :
    Nat × Trace :=
  let t1 := WriteBytes_bits 8 Buff (DioConfigOut t)
  let t2 := t1 |> ClkWrite 0 |> DioConfigIn |> DioWrite 1
               |> DelayUs CommunicationDelayUs
  let r := DioRead Handler t2
  (r.1, r.2 |> ClkWrite 1 |> DelayUs CommunicationDelayUs |> ClkWrite 0)

/-- The outer loop of `TM1637_WriteBytes` (TM1637.c 135-168),
`for (j = 0; j < NumOfBytes; j++)`; the first argument is the number of
iterations left, `NumOfBytes - j`, the third the current `Result`. `Data[j]` is
a `uint8_t`; the sequence `Data` stands for the memory `Data` points to (the C
code never reads past `NumOfBytes` bytes of it). `j` is a `uint8_t` that stays
below `NumOfBytes ≤ 255`, so it never wraps. -/
def WriteBytes_loop (Handler : TM1637_Handler_t) (Data : List Nat) :
    Nat → Nat → Int → Trace → Int × Trace
  | 0, _, Result, t => (Result, t)
  | n + 1, j, _, t =>
    let r := WriteBytes_byte Handler (Data.getD j 0 % 256) t
    if r.1 ≠ 0 then (-1, r.2)
    else WriteBytes_loop Handler Data n (j + 1) 0 r.2

/-- Function `TM1637_WriteBytes` (TM1637.c 127-172). -/
def TM1637_WriteBytes (Handler : TM1637_Handler_t) (Data : List Nat)
    (NumOfBytes : Nat) (t : Trace) : Int × Trace :=
  let r := WriteBytes_loop Handler Data NumOfBytes 0 0 t
  (r.1, DelayUs CommunicationDelayUs r.2)

/-- Bitwise OR of two `int8_t` values (`Result |= ...`): the OR of their
two's-complement bit patterns, read back as a signed byte. -/
def int8_or (x y : Int) : Int :=
  let u := (x % 256).toNat ||| (y % 256).toNat
  if u < 128 then (u : Int) else (u : Int) - 256

/-- Function `TM1637_SetMultipleDisplayRegister` (TM1637.c 174-206). `Count` and
`StartAddr` are `uint8_t`, promoted to `int` in `StartAddr + Count`. -/
def TM1637_SetMultipleDisplayRegister (Handler : TM1637_Handler_t)
    (DigitData : List Nat) (StartAddr Count : Nat) (t : Trace) : Int × Trace :=
  let Data := (DataCommandSetting ||| WriteDataToDisplayRegister |||
               AutomaticAddressAdd ||| NormalMode) % 256
  let t := TM1637_StartCommunication t
  let r := TM1637_WriteBytes Handler [Data] 1 t
  let t := TM1637_StopCommunication r.2
  if r.1 < 0 then (-1, t)
  else if StartAddr ≥ MaxNumOfDigits then (-1, t)
  else
    let Count := if StartAddr + Count > MaxNumOfDigits then 6 - StartAddr else Count
    let Data := (AddressCommandSetting ||| StartAddr) % 256
    let t := TM1637_StartCommunication t
    let r1 := TM1637_WriteBytes Handler [Data] 1 t
    let r2 := TM1637_WriteBytes Handler DigitData Count r1.2
    let Result := int8_or (int8_or 0 r1.1) r2.1
    let t := TM1637_StopCommunication r2.2
    if Result < 0 then (-2, t) else (0, t)

/-! ## Public display functions -/

/-- Function `TM1637_ConfigDisplay` (TM1637.c 268-282). -/
def TM1637_ConfigDisplay (Handler : TM1637_Handler_t)
    (Brightness DisplayState : Nat) (t : Trace) : TM1637_Result_t × Trace :=
  let Data := DisplayControl
  let Data := (Data ||| (Brightness &&& 0x07)) % 256
  let Data := (Data ||| (if DisplayState ≠ 0 then ShowTurnOn else ShowTurnOff)) % 256
  let t := TM1637_StartCommunication t
  let r := TM1637_WriteBytes Handler [Data] 1 t
  let t := TM1637_StopCommunication r.2
  (TM1637_OK, t)

/-- Function `TM1637_SetSingleDigit` (TM1637.c 298-306); `&DigitData` is the
one-element sequence `[DigitData]`. -/
def TM1637_SetSingleDigit (Handler : TM1637_Handler_t)
    (DigitData DigitPos : Nat) (t : Trace) : TM1637_Result_t × Trace :=
  let r := TM1637_SetMultipleDisplayRegister Handler [DigitData] DigitPos 1 t
  if r.1 < 0 then (TM1637_FAIL, r.2) else (TM1637_OK, r.2)

/-- Function `TM1637_SetMultipleDigit` (TM1637.c 323-331). -/
def TM1637_SetMultipleDigit (Handler : TM1637_Handler_t)
    (DigitData : List Nat) (StartAddr Count : Nat) (t : Trace) :
    TM1637_Result_t × Trace :=
  let r := TM1637_SetMultipleDisplayRegister Handler DigitData StartAddr Count t
  if r.1 < 0 then (TM1637_FAIL, r.2) else (TM1637_OK, r.2)

/-! ## Bus analyser

What a device on the two wires sees, reconstructed from the recorded calls:
a START is a fall of the data line while the clock is high, a STOP a rise of
the data line while the clock is high; in between, the data line is sampled at
each rising clock edge, eight data bits least-significant first, and the ninth
rising edge is the acknowledge slot of the byte. -/

/-- One byte seen on the bus: its value and the level the driver read
(`DioRead`) in its acknowledge slot. -/
structure SentByte where
  value : Nat
  ack : Nat
  deriving DecidableEq, Repr

/-- State of the bus analyser. `clk` and `dio` are the levels last written,
`nbits` and `cur` the data bits sampled so far in the current byte, `ack` the
level of the most recent `DioRead`, `bytes` the bytes completed since the last
START (or since the beginning), `frames` the frames closed by a STOP. -/
structure Monitor where
  clk : Bool
  dio : Bool
  nbits : Nat
  cur : Nat
  ack : Nat
  inFrame : Bool
  bytes : List SentByte
  frames : List (List SentByte)
  deriving DecidableEq, Repr

/-- Idle bus: both lines high, nothing seen. -/
def Monitor.idle : Monitor :=
  { clk := true, dio := true, nbits := 0, cur := 0, ack := 0,
    inFrame := false, bytes := [], frames := [] }

/-- The analyser's reaction to one recorded call. -/
def Monitor.step (m : Monitor) : Event → Monitor
  | Event.ClkWrite v =>
    if v = 0 then { m with clk := false }
    else if m.clk then m
    else if m.nbits < 8 then
      { m with clk := true, nbits := m.nbits + 1,
               cur := m.cur + (if m.dio then 2 ^ m.nbits else 0) }
    else
      { m with clk := true, nbits := 0, cur := 0,
               bytes := m.bytes ++ [{ value := m.cur, ack := m.ack }] }
  | Event.DioWrite v =>
    if m.clk then
      if v = 0 then
        if m.dio then
          { m with dio := false, inFrame := true, nbits := 0, cur := 0, bytes := [] }
        else m
      else
        if m.dio then m
        else if m.inFrame then
          { m with dio := true, inFrame := false, nbits := 0, cur := 0,
                   bytes := [], frames := m.frames ++ [m.bytes] }
        else { m with dio := true }
    else { m with dio := decide (v ≠ 0) }
  | Event.DioRead v => { m with ack := v }
  | _ => m

/-- The analyser's state after a whole trace, starting from an idle bus. -/
def observe (t : Trace) : Monitor := t.foldl Monitor.step Monitor.idle

/-- The frames (START ... STOP) completed in a trace, oldest first. -/
def frames (t : Trace) : List (List SentByte) := (observe t).frames

/-- The bytes completed in a trace since its last START (all bytes of the trace
when it has no START). -/
def pending (t : Trace) : List SentByte := (observe t).bytes

/-- The pattern (data) bytes of a `setDigits` call: what follows the address
command in the second frame of the trace. -/
def patternBytes (t : Trace) : List SentByte := ((frames t).getD 1 []).tail

/-- Number of `DioRead` calls in a trace. -/
def ackReads (t : Trace) : Nat :=
  t.countP (fun e => match e with | Event.DioRead _ => true | _ => false)

/-- The levels passed to `DioWrite` in a trace, oldest first. -/
def dioWrites (t : Trace) : List Nat :=
  t.filterMap (fun e => match e with | Event.DioWrite v => some v | _ => none)

/-- The clock level, as the analyser tracks it from state `m` on, at the moment
of each `DioRead` of a trace, oldest first (`true` is high). -/
def clockAtReadsFrom (m : Monitor) : Trace → List Bool
  | [] => []
  | Event.DioRead v :: es => m.clk :: clockAtReadsFrom (m.step (Event.DioRead v)) es
  | e :: es => clockAtReadsFrom (m.step e) es

/-- The clock level at each `DioRead` of a trace recorded from an idle bus. -/
def clockAtReads (t : Trace) : List Bool := clockAtReadsFrom Monitor.idle t

/-- The arguments of the `DelayUs` calls of a trace, oldest first. -/
def delays (t : Trace) : List Nat :=
  t.filterMap (fun e => match e with | Event.DelayUs u => some u | _ => none)

/-- The clock level, as the analyser tracks it from state `m` on, at the moment
of each `DioWrite` of a trace, oldest first (`true` is high). -/
def clockAtWritesFrom (m : Monitor) : Trace → List Bool
  | [] => []
  | Event.DioWrite v :: es => m.clk :: clockAtWritesFrom (m.step (Event.DioWrite v)) es
  | e :: es => clockAtWritesFrom (m.step e) es

/-- The clock level at each `DioWrite` of a trace recorded from an idle bus. -/
def clockAtWrites (t : Trace) : List Bool := clockAtWritesFrom Monitor.idle t

/-- The clock levels at the data-line writes of one frame of `n` bytes: the two
writes of START, nine writes per byte (eight bits and the release before the
acknowledge read), the two writes of STOP. -/
def frameWriteClocks (n : Nat) : List Bool :=
  [true, true] ++ List.replicate (9 * n) false ++ [false, true]

/-- The level of the last `ClkWrite` of a trace, if any. -/
def lastClkWrite (t : Trace) : Option Nat :=
  t.reverse.findSome? (fun e => match e with | Event.ClkWrite v => some v | _ => none)

/-- The level of the last `DioWrite` of a trace, if any. -/
def lastDioWrite (t : Trace) : Option Nat :=
  t.reverse.findSome? (fun e => match e with | Event.DioWrite v => some v | _ => none)

/-- Whether the data pin was last configured as an output (`some true`), as an
input (`some false`), or never configured. -/
def lastDioConfig (t : Trace) : Option Bool :=
  t.reverse.findSome? (fun e => match e with
    | Event.DioConfigOut => some true
    | Event.DioConfigIn => some false
    | _ => none)

/-! ## Hexadecimal digits (`HexTo7Seg`, `TM1637_SetSingleDigit_HEX`) -/

/-- Table `HexTo7Seg[16]` (TM1637.c 75-93). -/
def HexTo7Seg : List Nat :=
  [0x3F, 0x06, 0x5B, 0x4F, 0x66, 0x6D, 0x7D, 0x07,
   0x7F, 0x6F, 0x77, 0x7C, 0x39, 0x5E, 0x79, 0x71]

/-- Lines 351-398 of `TM1637_SetSingleDigit_HEX`: the value of `DigitDataHEX`
computed from the argument `DigitData`. The `switch` is written as a chain of
tests on the same value. A table access `HexTo7Seg[i]` yields `none` when `i`
is outside the table. -/
def SetSingleDigit_HEX_pattern (DigitData : Nat) : Option Nat :=
  let DecimalPoint := DigitData &&& 0x80
  let DigitData := DigitData &&& 0x7F
  if DigitData ≤ 15 then
    (HexTo7Seg[DigitData]?).map (fun x => (x ||| DecimalPoint) % 256)
  else if DigitData = 'A'.toNat ∨ DigitData = 'a'.toNat then
    (HexTo7Seg[0x0A]?).map (fun x => (x ||| DecimalPoint) % 256)
  else if DigitData = 'B'.toNat ∨ DigitData = 'b'.toNat then
    (HexTo7Seg[0x0B]?).map (fun x => (x ||| DecimalPoint) % 256)
  else if DigitData = 'C'.toNat ∨ DigitData = 'c'.toNat then
    (HexTo7Seg[0x0C]?).map (fun x => (x ||| DecimalPoint) % 256)
  else if DigitData = 'D'.toNat ∨ DigitData = 'd'.toNat then
    (HexTo7Seg[0x0D]?).map (fun x => (x ||| DecimalPoint) % 256)
  else if DigitData = 'E'.toNat ∨ DigitData = 'e'.toNat then
    (HexTo7Seg[0x0E]?).map (fun x => (x ||| DecimalPoint) % 256)
  else if DigitData = 'F'.toNat ∨ DigitData = 'f'.toNat then
    (HexTo7Seg[0x0F]?).map (fun x => (x ||| DecimalPoint) % 256)
  else some 0

/-- Function `TM1637_SetSingleDigit_HEX` (TM1637.c 347-401); `none` stands for
a table access outside `HexTo7Seg`. -/
def TM1637_SetSingleDigit_HEX (Handler : TM1637_Handler_t)
    (DigitData DigitPos : Nat) (t : Trace) : Option (TM1637_Result_t × Trace) :=
  (SetSingleDigit_HEX_pattern DigitData).map
    (fun DigitDataHEX => TM1637_SetSingleDigit Handler DigitDataHEX DigitPos t)

end TM1637

/-!
# MAX7219 shift-register display driver (`src/src/max7219.h`)

Only the header is part of the sources: it gives the constants and declares the
functions. The function bodies are modelled from the specification. A call of
`MAX7219_writeData` is recorded as the pair (register address, value).
-/

namespace MAX7219

/-! ## Constants (`#define`s of max7219.h) -/

def MAX7219_DIGIT0 : Nat := 0x01
def MAX7219_DIGIT1 : Nat := 0x02
def MAX7219_DIGIT2 : Nat := 0x03
def MAX7219_DIGIT3 : Nat := 0x04
def MAX7219_CHAR_BLANK : Nat := 0xF
def MAX7219_CHAR_NEGATIVE : Nat := 0xA
def DIGITS_IN_USE : Nat := 4

/-- Register writes made so far, oldest first: (register address, value). -/
abbrev Writes := List (Nat × Nat)

/-- Modelled from the spec: the body of `MAX7219_writeData` (declared in
max7219.h, defined outside src/). "Transmits two bytes (address, then value)
... then toggles the latch line ... to commit both bytes"; the committed pair is
recorded. -/
def MAX7219_writeData (data_register data : Nat) (w : Writes) : Writes :=
  w ++ [(data_register, data)]

/-- Modelled from the spec: the digit loop of `MAX7219_displayNumber` (body
outside src/). "Decomposes n into decimal digits (magnitude) up to the
configured digit count, using ... raw decimal digit values": the digits of
`number` are written least significant first to the registers after position
`i`, at most `left` of them. Returns the position of the last digit written. -/
def displayNumber_digits : Nat → Nat → Nat → Writes → Nat × Writes
  | 0, i, _, w => (i, w)
  | left + 1, i, number, w =>
    let w := MAX7219_writeData (i + 1) (number % 10) w
    if number / 10 = 0 then (i + 1, w)
    else displayNumber_digits left (i + 1) (number / 10) w

/-- Modelled from the spec: the padding of `MAX7219_displayNumber` (body
outside src/). "Pads unused leading digit positions with the chip's blank
code": positions `i + 1, ..., DIGITS_IN_USE` receive the blank code; `left`
bounds the number of positions. -/
def displayNumber_pad : Nat → Nat → Writes → Writes
  | 0, _, w => w
  | left + 1, i, w =>
    if i + 1 ≤ DIGITS_IN_USE then
      displayNumber_pad left (i + 1) (MAX7219_writeData (i + 1) MAX7219_CHAR_BLANK w)
    else w

/-- Modelled from the spec: the body of `MAX7219_displayNumber` (declared in
max7219.h, defined outside src/). The magnitude of `number` is written as
decimal digits from the least significant position, `0` as a single zero digit
("must handle n == 0 as a single zero digit, not a blank display"); a negative
number gets the negative-sign code in the position next above its most
significant digit: the spec's "most significant unused position" is read with
its scenario for -5, "the negative-sign code immediately to its left, with all
higher positions blank"; the positions above are padded with the blank code. -/
def MAX7219_displayNumber (number : Int) (w : Writes) : Writes :=
  let negative := decide (number < 0)
  let r := displayNumber_digits DIGITS_IN_USE 0 number.natAbs w
  let s := if negative then
      (r.1 + 1, MAX7219_writeData (r.1 + 1) MAX7219_CHAR_NEGATIVE r.2)
    else r
  displayNumber_pad DIGITS_IN_USE s.1 s.2

/-- The value a register holds after the recorded writes: that of the last
write to it, if any. -/
def registerValue (w : Writes) (data_register : Nat) : Option Nat :=
  ((w.reverse.find? (fun p => p.1 == data_register)).map Prod.snd)

end MAX7219

namespace TM1637

open TM1637_Result_t

/-! ## Relations used in the proofs -/

/-- Outcome of one byte burst as the analyser sees it: `Burst Data n j res sent`
says that sending up to `n` bytes `Data[j], Data[j+1], ...` produced the bytes
`sent` and the result `res`. -/
inductive Burst (Data : List Nat) : Nat → Nat → Int → List SentByte → Prop where
  | done (j : Nat) : Burst Data 0 j 0 []
  | nak (n j a : Nat) (ha : a ≠ 0) :
      Burst Data (n + 1) j (-1) [⟨Data.getD j 0 % 256, a⟩]
  | ack (n j : Nat) (res : Int) (rest : List SentByte) :
      Burst Data n (j + 1) res rest →
      Burst Data (n + 1) j res (⟨Data.getD j 0 % 256, 0⟩ :: rest)

/-- The analyser is between frames: both lines high, no partial byte. -/
def Monitor.isIdle (m : Monitor) : Prop :=
  m.clk = true ∧ m.dio = true ∧ m.nbits = 0 ∧ m.cur = 0 ∧ m.inFrame = false ∧ m.bytes = []

theorem observe_append (t es : Trace) :
    observe (t ++ es) = es.foldl Monitor.step (observe t) := by
  simp [observe, List.foldl_append]

theorem observe_DioConfigOut (t : Trace) : observe (DioConfigOut t) = observe t := by
  simp [DioConfigOut, observe_append, Monitor.step]

theorem observe_DioConfigIn (t : Trace) : observe (DioConfigIn t) = observe t := by
  simp [DioConfigIn, observe_append, Monitor.step]

theorem observe_DelayUs (n : Nat) (t : Trace) : observe (DelayUs n t) = observe t := by
  simp [DelayUs, observe_append, Monitor.step]

theorem observe_ClkWrite (v : Nat) (t : Trace) :
    observe (ClkWrite v t) = (observe t).step (Event.ClkWrite v) := by
  simp [ClkWrite, observe_append]

theorem observe_DioWrite (v : Nat) (t : Trace) :
    observe (DioWrite v t) = (observe t).step (Event.DioWrite v) := by
  simp [DioWrite, observe_append]

theorem observe_DioRead (H : TM1637_Handler_t) (t : Trace) :
    observe (DioRead H t).2 = { observe t with ack := (DioRead H t).1 } := by
  simp [DioRead, observe_append, Monitor.step]

theorem observe_Start (t : Trace) (hc : (observe t).clk = true)
    (hd : (observe t).dio = true) :
    observe (TM1637_StartCommunication t) =
      { observe t with dio := false, inFrame := true, nbits := 0, cur := 0, bytes := [] } := by
  simp only [TM1637_StartCommunication, observe_DioConfigOut, observe_DelayUs,
    observe_ClkWrite, observe_DioWrite]
  generalize observe t = m at *
  cases m
  simp at hc hd
  subst hc hd
  simp [Monitor.step]

theorem observe_Stop (t : Trace) (hn : (observe t).nbits < 8)
    (hf : (observe t).inFrame = true) :
    observe (TM1637_StopCommunication t) =
      { observe t with clk := true, dio := true, inFrame := false, nbits := 0, cur := 0,
                       bytes := [], frames := (observe t).frames ++ [(observe t).bytes] } := by
  simp only [TM1637_StopCommunication, observe_DioConfigOut, observe_DelayUs,
    observe_ClkWrite, observe_DioWrite]
  generalize observe t = m at *
  cases m
  simp at hn hf
  subst hf
  simp [Monitor.step, hn]

theorem bit_decomp (B n k : Nat) :
    (if B % 2 ≠ 0 then 2 ^ k else 0) + ((B / 2) % 2 ^ n) * 2 ^ (k + 1)
      = (B % 2 ^ (n + 1)) * 2 ^ k := by
  rw [pow_succ' 2 n, Nat.mod_mul]
  rcases Nat.mod_two_eq_zero_or_one B with h | h <;> simp [h] <;> ring

theorem observe_bits (n : Nat) : ∀ (B : Nat) (t : Trace),
    (observe t).nbits + n ≤ 8 →
    (observe (WriteBytes_bits n B t)).nbits = (observe t).nbits + n ∧
    (observe (WriteBytes_bits n B t)).cur
      = (observe t).cur + (B % 2 ^ n) * 2 ^ (observe t).nbits ∧
    (observe (WriteBytes_bits n B t)).ack = (observe t).ack ∧
    (observe (WriteBytes_bits n B t)).inFrame = (observe t).inFrame ∧
    (observe (WriteBytes_bits n B t)).bytes = (observe t).bytes ∧
    (observe (WriteBytes_bits n B t)).frames = (observe t).frames := by
  induction n with
  | zero => intro B t _; simp [WriteBytes_bits, Nat.mod_one]
  | succ n ih =>
    intro B t hle
    simp only [WriteBytes_bits]
    have hstep : observe (DelayUs CommunicationDelayUs (ClkWrite 1 (DelayUs CommunicationDelayUs
        (DioWrite (B &&& 0x01) (ClkWrite 0 t))))) =
        { observe t with
            clk := true, dio := decide (B % 2 ≠ 0), nbits := (observe t).nbits + 1,
            cur := (observe t).cur + (if B % 2 ≠ 0 then 2 ^ (observe t).nbits else 0) } := by
      simp only [observe_DelayUs, observe_ClkWrite, observe_DioWrite]
      have hlt : (observe t).nbits < 8 := by omega
      generalize observe t = m at *
      cases m
      simp at hlt
      simp [Monitor.step, hlt, Nat.and_one_is_mod]
    have := ih (B >>> 1) _ (by rw [hstep]; simp; omega)
    rw [hstep] at this
    simp only [] at this
    obtain ⟨h1, h2, h3, h4, h5, h6⟩ := this
    refine ⟨by rw [h1]; omega, ?_, h3, h4, h5, h6⟩
    rw [h2, Nat.shiftRight_one, Nat.add_assoc, bit_decomp]

theorem observe_byte (H : TM1637_Handler_t) (B : Nat) (t : Trace) (hB : B < 256)
    (hn : (observe t).nbits = 0) (hc : (observe t).cur = 0) :
    observe (WriteBytes_byte H B t).2 =
      { observe t with
          clk := false, dio := true, nbits := 0, cur := 0,
          ack := (WriteBytes_byte H B t).1,
          bytes := (observe t).bytes ++ [⟨B, (WriteBytes_byte H B t).1⟩] } := by
  have hb := observe_bits 8 B (DioConfigOut t) (by rw [observe_DioConfigOut, hn])
  rw [observe_DioConfigOut, hn, hc] at hb
  simp only [WriteBytes_byte, observe_DelayUs, observe_ClkWrite, observe_DioWrite,
    observe_DioRead, observe_DioConfigIn]
  generalize (DioRead H _).1 = a
  generalize observe (WriteBytes_bits 8 B (DioConfigOut t)) = m1 at *
  generalize observe t = m at *
  have h256 : B % 2 ^ 8 = B := Nat.mod_eq_of_lt (by simpa using hB)
  cases m1
  cases m
  simp only [h256] at hb
  simp at hb hn hc
  obtain ⟨h1, h2, h3, h4, h5, h6⟩ := hb
  subst h1 h2 h3 h4 h5 h6 hn hc
  simp [Monitor.step]

theorem ackReads_append (t es : Trace) : ackReads (t ++ es) = ackReads t + ackReads es := by
  simp [ackReads, List.countP_append]

theorem ackReads_bits (n : Nat) : ∀ (B : Nat) (t : Trace),
    ackReads (WriteBytes_bits n B t) = ackReads t := by
  induction n with
  | zero => intro B t; rfl
  | succ n ih =>
    intro B t
    simp only [WriteBytes_bits, ih]
    simp [ClkWrite, DioWrite, DelayUs, ackReads_append, ackReads]

theorem ackReads_byte (H : TM1637_Handler_t) (B : Nat) (t : Trace) :
    ackReads (WriteBytes_byte H B t).2 = ackReads t + 1 := by
  simp only [WriteBytes_byte, ClkWrite, DioWrite, DelayUs, DioRead, DioConfigIn,
    ackReads_append, ackReads_bits, DioConfigOut]
  simp [ackReads]

theorem loop_spec (H : TM1637_Handler_t) (Data : List Nat) (n : Nat) :
    ∀ (j : Nat) (t : Trace), (observe t).nbits = 0 → (observe t).cur = 0 →
    ∃ sent, Burst Data n j (WriteBytes_loop H Data n j 0 t).1 sent ∧
      (observe (WriteBytes_loop H Data n j 0 t).2).nbits = 0 ∧
      (observe (WriteBytes_loop H Data n j 0 t).2).cur = 0 ∧
      (observe (WriteBytes_loop H Data n j 0 t).2).inFrame = (observe t).inFrame ∧
      (observe (WriteBytes_loop H Data n j 0 t).2).frames = (observe t).frames ∧
      (observe (WriteBytes_loop H Data n j 0 t).2).bytes = (observe t).bytes ++ sent ∧
      ackReads (WriteBytes_loop H Data n j 0 t).2 = ackReads t + sent.length := by
  induction n with
  | zero =>
    intro j t hn hc
    exact ⟨[], Burst.done j, by simpa [WriteBytes_loop] using ⟨hn, hc⟩⟩
  | succ n ih =>
    intro j t hn hc
    have hB : Data.getD j 0 % 256 < 256 := Nat.mod_lt _ (by decide)
    have hb := observe_byte H _ t hB hn hc
    have hr := ackReads_byte H (Data.getD j 0 % 256) t
    simp only [WriteBytes_loop]
    by_cases hack : (WriteBytes_byte H (Data.getD j 0 % 256) t).1 = 0
    · simp only [hack, ne_eq, not_true_eq_false, if_false]
      rw [hack] at hb
      obtain ⟨sent, hs, h1, h2, h3, h4, h5, h6⟩ :=
        ih (j + 1) (WriteBytes_byte H (Data.getD j 0 % 256) t).2
          (by rw [hb]) (by rw [hb])
      refine ⟨_ :: sent, Burst.ack n j _ sent hs, h1, h2, ?_, ?_, ?_, ?_⟩
      · rw [h3, hb]
      · rw [h4, hb]
      · rw [h5, hb]; simp
      · rw [h6, hr]; simp; omega
    · simp only [ne_eq, hack, not_false_eq_true, if_true]
      refine ⟨_, Burst.nak n j _ hack, ?_, ?_, ?_, ?_, ?_, ?_⟩
      · rw [hb]
      · rw [hb]
      · rw [hb]
      · rw [hb]
      · rw [hb]
      · rw [hr]; rfl

theorem WriteBytes_spec (H : TM1637_Handler_t) (Data : List Nat) (n : Nat) (t : Trace)
    (hn : (observe t).nbits = 0) (hc : (observe t).cur = 0) :
    ∃ sent, Burst Data n 0 (TM1637_WriteBytes H Data n t).1 sent ∧
      (observe (TM1637_WriteBytes H Data n t).2).nbits = 0 ∧
      (observe (TM1637_WriteBytes H Data n t).2).cur = 0 ∧
      (observe (TM1637_WriteBytes H Data n t).2).inFrame = (observe t).inFrame ∧
      (observe (TM1637_WriteBytes H Data n t).2).frames = (observe t).frames ∧
      (observe (TM1637_WriteBytes H Data n t).2).bytes = (observe t).bytes ++ sent ∧
      ackReads (TM1637_WriteBytes H Data n t).2 = ackReads t + sent.length := by
  obtain ⟨sent, hs, h⟩ := loop_spec H Data n 0 t hn hc
  refine ⟨sent, hs, ?_⟩
  have hd : ∀ u, ackReads (DelayUs CommunicationDelayUs u) = ackReads u := by
    intro u; simp [DelayUs, ackReads_append, ackReads]
  simpa only [TM1637_WriteBytes, observe_DelayUs, hd] using h

theorem Burst.length_le {Data : List Nat} {n j : Nat} {res : Int} {sent : List SentByte}
    (h : Burst Data n j res sent) : sent.length ≤ n := by
  induction h with
  | done j => simp
  | nak n j a ha => simp
  | ack n j res rest _ ih => simp; omega

theorem Burst.values {Data : List Nat} {n j : Nat} {res : Int} {sent : List SentByte}
    (h : Burst Data n j res sent) :
    sent.map SentByte.value
      = (List.range sent.length).map (fun i => Data.getD (j + i) 0 % 256) := by
  induction h with
  | done j => simp
  | nak n j a ha => simp [List.range_succ]
  | ack n j res rest _ ih =>
    rw [List.length_cons, List.range_succ_eq_map, List.map_cons, List.map_cons, ih,
      List.map_map]
    congr 1
    apply List.map_congr_left
    intro i _
    simp only [Function.comp, Nat.succ_eq_add_one]
    congr 2
    omega

theorem Burst.result {Data : List Nat} {n j : Nat} {res : Int} {sent : List SentByte}
    (h : Burst Data n j res sent) :
    (res = 0 ∧ sent.length = n ∧ ∀ b ∈ sent, b.ack = 0) ∨
    (res = -1 ∧ ∃ init last, sent = init ++ [last] ∧ last.ack ≠ 0 ∧
      ∀ b ∈ init, b.ack = 0) := by
  induction h with
  | done j => left; simp
  | nak n j a ha => right; exact ⟨rfl, [], _, rfl, ha, by simp⟩
  | ack n j res rest _ ih =>
    rcases ih with ⟨h1, h2, h3⟩ | ⟨h1, init, last, h2, h3, h4⟩
    · left
      refine ⟨h1, by simp [h2], ?_⟩
      intro b hb
      rcases List.mem_cons.mp hb with rfl | hb
      · rfl
      · exact h3 b hb
    · right
      refine ⟨h1, _ :: init, last, by rw [h2]; rfl, h3, ?_⟩
      intro b hb
      rcases List.mem_cons.mp hb with rfl | hb
      · rfl
      · exact h4 b hb

theorem Burst.one {D : Nat} {res : Int} {sent : List SentByte}
    (h : Burst [D] 1 0 res sent) :
    ∃ a, sent = [⟨D % 256, a⟩] ∧ res = if a = 0 then 0 else -1 := by
  cases h with
  | nak n j a ha => exact ⟨a, rfl, by simp [ha]⟩
  | ack n j res rest h' =>
    cases h' with
    | done j => exact ⟨0, rfl, rfl⟩

theorem start_spec (t : Trace) (h : (observe t).isIdle) :
    (observe (TM1637_StartCommunication t)).nbits = 0 ∧
    (observe (TM1637_StartCommunication t)).cur = 0 ∧
    (observe (TM1637_StartCommunication t)).inFrame = true ∧
    (observe (TM1637_StartCommunication t)).bytes = [] ∧
    (observe (TM1637_StartCommunication t)).frames = (observe t).frames ∧
    ackReads (TM1637_StartCommunication t) = ackReads t := by
  obtain ⟨h1, h2, _, _, _, _⟩ := h
  rw [observe_Start t h1 h2]
  refine ⟨rfl, rfl, rfl, rfl, rfl, ?_⟩
  simp [TM1637_StartCommunication, DioConfigOut, DioWrite, ClkWrite, DelayUs,
    ackReads_append, ackReads]

theorem stop_spec (t : Trace) (hn : (observe t).nbits = 0)
    (hf : (observe t).inFrame = true) :
    (observe (TM1637_StopCommunication t)).isIdle ∧
    (observe (TM1637_StopCommunication t)).frames
      = (observe t).frames ++ [(observe t).bytes] ∧
    ackReads (TM1637_StopCommunication t) = ackReads t := by
  rw [observe_Stop t (by omega) hf]
  refine ⟨⟨rfl, rfl, rfl, rfl, rfl, rfl⟩, rfl, ?_⟩
  simp [TM1637_StopCommunication, DioConfigOut, DioWrite, ClkWrite, DelayUs,
    ackReads_append, ackReads]

/-- One frame holding a single byte burst of one byte. -/
theorem frame_one (H : TM1637_Handler_t) (D : Nat) (t : Trace) (h : (observe t).isIdle) :
    ∃ a, (TM1637_WriteBytes H [D] 1 (TM1637_StartCommunication t)).1
          = (if a = 0 then 0 else -1) ∧
      (observe (TM1637_StopCommunication
        (TM1637_WriteBytes H [D] 1 (TM1637_StartCommunication t)).2)).isIdle ∧
      (observe (TM1637_StopCommunication
        (TM1637_WriteBytes H [D] 1 (TM1637_StartCommunication t)).2)).frames
        = (observe t).frames ++ [[⟨D % 256, a⟩]] ∧
      ackReads (TM1637_StopCommunication
        (TM1637_WriteBytes H [D] 1 (TM1637_StartCommunication t)).2) = ackReads t + 1 := by
  obtain ⟨s1, s2, s3, s4, s5, s6⟩ := start_spec t h
  obtain ⟨sent, hb, w1, w2, w3, w4, w5, w6⟩ :=
    WriteBytes_spec H [D] 1 (TM1637_StartCommunication t) s1 s2
  obtain ⟨a, rfl, hr⟩ := hb.one
  obtain ⟨p1, p2, p3⟩ := stop_spec _ w1 (by rw [w3, s3])
  refine ⟨a, hr, p1, ?_, ?_⟩
  · rw [p2, w4, w5, s4, s5]; rfl
  · rw [p3, w6, s6]; rfl

/-- One frame holding a one-byte burst followed by a burst of `n` bytes. -/
theorem frame_two (H : TM1637_Handler_t) (D : Nat) (P : List Nat) (n : Nat) (t : Trace)
    (h : (observe t).isIdle) :
    ∃ a sent, (TM1637_WriteBytes H [D] 1 (TM1637_StartCommunication t)).1
          = (if a = 0 then 0 else -1) ∧
      Burst P n 0 (TM1637_WriteBytes H P n
        (TM1637_WriteBytes H [D] 1 (TM1637_StartCommunication t)).2).1 sent ∧
      (observe (TM1637_StopCommunication (TM1637_WriteBytes H P n
        (TM1637_WriteBytes H [D] 1 (TM1637_StartCommunication t)).2).2)).isIdle ∧
      (observe (TM1637_StopCommunication (TM1637_WriteBytes H P n
        (TM1637_WriteBytes H [D] 1 (TM1637_StartCommunication t)).2).2)).frames
        = (observe t).frames ++ [⟨D % 256, a⟩ :: sent] ∧
      ackReads (TM1637_StopCommunication (TM1637_WriteBytes H P n
        (TM1637_WriteBytes H [D] 1 (TM1637_StartCommunication t)).2).2)
        = ackReads t + 1 + sent.length := by
  obtain ⟨s1, s2, s3, s4, s5, s6⟩ := start_spec t h
  obtain ⟨sent1, hb, w1, w2, w3, w4, w5, w6⟩ :=
    WriteBytes_spec H [D] 1 (TM1637_StartCommunication t) s1 s2
  obtain ⟨a, rfl, hr⟩ := hb.one
  obtain ⟨sent, hb2, v1, v2, v3, v4, v5, v6⟩ :=
    WriteBytes_spec H P n _ w1 w2
  obtain ⟨p1, p2, p3⟩ := stop_spec _ v1 (by rw [v3, w3, s3])
  refine ⟨a, sent, hr, hb2, p1, ?_, ?_⟩
  · rw [p2, v4, v5, w4, w5, s4, s5]; rfl
  · rw [p3, v6, w6, s6]; rfl

theorem observe_nil_isIdle : (observe []).isIdle := ⟨rfl, rfl, rfl, rfl, rfl, rfl⟩

theorem ite_pair {α β : Type} (c : Prop) [Decidable c] (x y : α) (t : β) :
    (if c then (x, t) else (y, t)) = (if c then x else y, t) := by
  split <;> rfl

theorem dataCommand_eq :
    (DataCommandSetting ||| WriteDataToDisplayRegister ||| AutomaticAddressAdd |||
      NormalMode) % 256 = 0x40 := by decide

/-- Everything `TM1637_SetMultipleDisplayRegister` does on a fresh recorder:
either it stops after the first frame, or it sends both frames. -/
theorem SetMultiple_spec (H : TM1637_Handler_t) (P : List Nat) (a c : Nat) :
    ∃ a0,
      ((a0 ≠ 0 ∨ 6 ≤ a) ∧
        TM1637_SetMultipleDisplayRegister H P a c [] =
          (-1, TM1637_StopCommunication
            (TM1637_WriteBytes H [0x40] 1 (TM1637_StartCommunication [])).2) ∧
        frames (TM1637_SetMultipleDisplayRegister H P a c []).2 = [[⟨0x40, a0⟩]] ∧
        (observe (TM1637_SetMultipleDisplayRegister H P a c []).2).isIdle ∧
        ackReads (TM1637_SetMultipleDisplayRegister H P a c []).2 = 1) ∨
      (a0 = 0 ∧ a < 6 ∧ ∃ a1 r sent,
        Burst P (if a + c > 6 then 6 - a else c) 0 r sent ∧
        frames (TM1637_SetMultipleDisplayRegister H P a c []).2
          = [[⟨0x40, 0⟩], ⟨(0xC0 ||| a) % 256, a1⟩ :: sent] ∧
        (TM1637_SetMultipleDisplayRegister H P a c []).1
          = (if a1 = 0 ∧ r = 0 then 0 else -2) ∧
        (observe (TM1637_SetMultipleDisplayRegister H P a c []).2).isIdle ∧
        ackReads (TM1637_SetMultipleDisplayRegister H P a c []).2 = 2 + sent.length) := by
  obtain ⟨a0, hr, hidle, hfr, hreads⟩ := frame_one H 0x40 [] observe_nil_isIdle
  refine ⟨a0, ?_⟩
  have hfr0 : (observe (TM1637_StopCommunication
      (TM1637_WriteBytes H [0x40] 1 (TM1637_StartCommunication [])).2)).frames
        = [[⟨0x40, a0⟩]] := by rw [hfr]; rfl
  have hreads0 : ackReads (TM1637_StopCommunication
      (TM1637_WriteBytes H [0x40] 1 (TM1637_StartCommunication [])).2) = 1 := by
    rw [hreads]; rfl
  by_cases h0 : a0 = 0
  · by_cases ha : 6 ≤ a
    · left
      have hout : TM1637_SetMultipleDisplayRegister H P a c [] =
          (-1, TM1637_StopCommunication
            (TM1637_WriteBytes H [0x40] 1 (TM1637_StartCommunication [])).2) := by
        simp only [TM1637_SetMultipleDisplayRegister, dataCommand_eq, hr, h0, if_true,
          MaxNumOfDigits, ge_iff_le, ha, lt_self_iff_false, if_false]
      refine ⟨Or.inr ha, hout, ?_, ?_, ?_⟩ <;> rw [hout]
      · exact hfr0
      · exact hidle
      · exact hreads0
    · right
      refine ⟨h0, by omega, ?_⟩
      obtain ⟨a1, sent, hr1, hb, hidle2, hfr2, hreads2⟩ :=
        frame_two H ((AddressCommandSetting ||| a) % 256) P
          (if a + c > 6 then 6 - a else c) _ hidle
      have hout : TM1637_SetMultipleDisplayRegister H P a c [] =
          (if int8_or (int8_or 0 (if a1 = 0 then 0 else -1))
              (TM1637_WriteBytes H P (if a + c > 6 then 6 - a else c)
                (TM1637_WriteBytes H [(AddressCommandSetting ||| a) % 256] 1
                  (TM1637_StartCommunication (TM1637_StopCommunication
                    (TM1637_WriteBytes H [0x40] 1 (TM1637_StartCommunication [])).2))).2).1 < 0
            then -2 else 0,
           TM1637_StopCommunication
            (TM1637_WriteBytes H P (if a + c > 6 then 6 - a else c)
                (TM1637_WriteBytes H [(AddressCommandSetting ||| a) % 256] 1
                  (TM1637_StartCommunication (TM1637_StopCommunication
                    (TM1637_WriteBytes H [0x40] 1 (TM1637_StartCommunication [])).2))).2).2) := by
        simp only [TM1637_SetMultipleDisplayRegister, dataCommand_eq, hr, h0, if_true,
          MaxNumOfDigits, ge_iff_le, ha, lt_self_iff_false, if_false, hr1]
        exact ite_pair _ _ _ _
      refine ⟨a1, _, sent, hb, ?_, ?_, ?_, ?_⟩
      · rw [hout, frames, hfr2, hfr0, h0]
        simp [AddressCommandSetting]
      · rw [hout]
        rcases hb.result with ⟨h1, _⟩ | ⟨h1, _⟩ <;> by_cases h2 : a1 = 0 <;>
          simp [h1, h2] <;> decide
      · rw [hout]; exact hidle2
      · rw [hout, hreads2, hreads0]
  · left
    have hout : TM1637_SetMultipleDisplayRegister H P a c [] =
        (-1, TM1637_StopCommunication
          (TM1637_WriteBytes H [0x40] 1 (TM1637_StartCommunication [])).2) := by
      simp [TM1637_SetMultipleDisplayRegister, dataCommand_eq, hr, h0]
    refine ⟨Or.inl h0, hout, ?_, ?_, ?_⟩ <;> rw [hout]
    · exact hfr0
    · exact hidle
    · exact hreads0

/-- Everything `TM1637_SetMultipleDigit` does on a fresh recorder. -/
theorem SetMultipleDigit_spec (H : TM1637_Handler_t) (P : List Nat) (a c : Nat) :
    ∃ a0,
      ((a0 ≠ 0 ∨ 6 ≤ a) ∧
        TM1637_SetMultipleDigit H P a c [] =
          (TM1637_FAIL, TM1637_StopCommunication
            (TM1637_WriteBytes H [0x40] 1 (TM1637_StartCommunication [])).2) ∧
        frames (TM1637_SetMultipleDigit H P a c []).2 = [[⟨0x40, a0⟩]] ∧
        (observe (TM1637_SetMultipleDigit H P a c []).2).isIdle ∧
        ackReads (TM1637_SetMultipleDigit H P a c []).2 = 1) ∨
      (a0 = 0 ∧ a < 6 ∧ ∃ a1 r sent,
        Burst P (if a + c > 6 then 6 - a else c) 0 r sent ∧
        frames (TM1637_SetMultipleDigit H P a c []).2
          = [[⟨0x40, 0⟩], ⟨(0xC0 ||| a) % 256, a1⟩ :: sent] ∧
        (TM1637_SetMultipleDigit H P a c []).1
          = (if a1 = 0 ∧ r = 0 then TM1637_OK else TM1637_FAIL) ∧
        (observe (TM1637_SetMultipleDigit H P a c []).2).isIdle ∧
        ackReads (TM1637_SetMultipleDigit H P a c []).2 = 2 + sent.length) := by
  obtain ⟨a0, h⟩ := SetMultiple_spec H P a c
  refine ⟨a0, ?_⟩
  rcases h with ⟨h1, h2, h3, h4, h5⟩ | ⟨h1, h2, a1, r, sent, h3, h4, h5, h6, h7⟩
  · left
    have hout : TM1637_SetMultipleDigit H P a c [] =
        (TM1637_FAIL, TM1637_StopCommunication
          (TM1637_WriteBytes H [0x40] 1 (TM1637_StartCommunication [])).2) := by
      simp [TM1637_SetMultipleDigit, h2]
    have h2s : (TM1637_SetMultipleDigit H P a c []).2
        = (TM1637_SetMultipleDisplayRegister H P a c []).2 := by
      rw [hout, h2]
    refine ⟨h1, hout, ?_, ?_, ?_⟩ <;> rw [h2s] <;> assumption
  · right
    have h2s : (TM1637_SetMultipleDigit H P a c []).2
        = (TM1637_SetMultipleDisplayRegister H P a c []).2 := by
      simp only [TM1637_SetMultipleDigit]; split <;> rfl
    refine ⟨h1, h2, a1, r, sent, h3, ?_, ?_, ?_, ?_⟩
    · rw [h2s]; exact h4
    · simp only [TM1637_SetMultipleDigit, h5]
      by_cases hc : a1 = 0 ∧ r = 0 <;> simp [hc]
    · rw [h2s]; exact h6
    · rw [h2s]; exact h7

theorem SetSingleDigit_eq (H : TM1637_Handler_t) (d a : Nat) (t : Trace) :
    TM1637_SetSingleDigit H d a t = TM1637_SetMultipleDigit H [d] a 1 t := rfl

theorem Stop_eq_append (t : Trace) :
    TM1637_StopCommunication t =
      t ++ [Event.DioConfigOut, Event.ClkWrite 0, Event.DioWrite 0, Event.DelayUs 5,
            Event.ClkWrite 1, Event.DelayUs 5, Event.DioWrite 1] := by
  simp [TM1637_StopCommunication, DioConfigOut, ClkWrite, DioWrite, DelayUs,
    CommunicationDelayUs]

/-! ## The claims -/

/-- C1 (as amended): for a start address `a ≥ 6`, whatever the count, the
patterns and the data line do, `TM1637_SetMultipleDigit` (and
`TM1637_SetSingleDigit`) returns `TM1637_FAIL`; the calls it makes before
returning are exactly those of the phase (a) frame (START, the write-mode
burst, STOP), which carries the single byte `0x40` with one acknowledge read;
no address command and no pattern byte is sent. -/
theorem C1_invalid_address_fails_after_phase_a (H : TM1637_Handler_t)
    (p : List Nat) (a c d : Nat) (ha : 6 ≤ a) :
    TM1637_SetMultipleDigit H p a c [] =
      (TM1637_FAIL, TM1637_StopCommunication
        (TM1637_WriteBytes H [0x40] 1 (TM1637_StartCommunication [])).2) ∧
    TM1637_SetSingleDigit H d a [] =
      (TM1637_FAIL, TM1637_StopCommunication
        (TM1637_WriteBytes H [0x40] 1 (TM1637_StartCommunication [])).2) ∧
    (frames (TM1637_SetMultipleDigit H p a c []).2).map (List.map SentByte.value)
      = [[0x40]] ∧
    ackReads (TM1637_SetMultipleDigit H p a c []).2 = 1 := by
  have key : ∀ q k, TM1637_SetMultipleDigit H q a k [] =
      (TM1637_FAIL, TM1637_StopCommunication
        (TM1637_WriteBytes H [0x40] 1 (TM1637_StartCommunication [])).2) := by
    intro q k
    obtain ⟨a0, h | h⟩ := SetMultipleDigit_spec H q a k
    · exact h.2.1
    · omega
  refine ⟨key p c, ?_, ?_, ?_⟩
  · rw [SetSingleDigit_eq]; exact key [d] 1
  · obtain ⟨a0, h | h⟩ := SetMultipleDigit_spec H p a c
    · rw [h.2.2.1]; rfl
    · omega
  · obtain ⟨a0, h | h⟩ := SetMultipleDigit_spec H p a c
    · exact h.2.2.2.2
    · omega

set_option maxRecDepth 100000 in
/-- C1 witness: address 6 on a bus that acknowledges everything. -/
theorem C1_invalid_address_witness :
    6 ≤ 6 ∧
    TM1637_SetMultipleDigit ⟨fun _ => 0⟩ [0x3F] 6 1 [] =
      (TM1637_FAIL, TM1637_StopCommunication
        (TM1637_WriteBytes ⟨fun _ => 0⟩ [0x40] 1 (TM1637_StartCommunication [])).2) ∧
    TM1637_SetSingleDigit ⟨fun _ => 0⟩ 0x3F 6 [] =
      (TM1637_FAIL, TM1637_StopCommunication
        (TM1637_WriteBytes ⟨fun _ => 0⟩ [0x40] 1 (TM1637_StartCommunication [])).2) ∧
    (frames (TM1637_SetMultipleDigit ⟨fun _ => 0⟩ [0x3F] 6 1 []).2).map
      (List.map SentByte.value) = [[0x40]] ∧
    ackReads (TM1637_SetMultipleDigit ⟨fun _ => 0⟩ [0x3F] 6 1 []).2 = 1 :=
  ⟨by decide, C1_invalid_address_fails_after_phase_a ⟨fun _ => 0⟩ [0x3F] 6 1 0x3F (by decide)⟩

set_option maxRecDepth 100000 in
/-- C1 as stated fails: with start address 6 the call does return
`TM1637_FAIL`, but only after 62 platform calls that put the byte `0x40` on the
bus in a complete frame. -/
theorem C1_counterexample :
    (TM1637_SetMultipleDigit ⟨fun _ => 0⟩ [0x3F] 6 1 []).1 = TM1637_FAIL ∧
    (TM1637_SetMultipleDigit ⟨fun _ => 0⟩ [0x3F] 6 1 []).2 ≠ [] ∧
    (TM1637_SetMultipleDigit ⟨fun _ => 0⟩ [0x3F] 6 1 []).2.length = 62 ∧
    frames (TM1637_SetMultipleDigit ⟨fun _ => 0⟩ [0x3F] 6 1 []).2 = [[⟨0x40, 0⟩]] := by
  decide

theorem addressCommand_range (a : Nat) (ha : a < 6) :
    (0xC0 ||| a) % 256 = 0xC0 ||| a ∧ 0xC0 ≤ 0xC0 ||| a ∧ 0xC0 ||| a ≤ 0xC5 := by
  interval_cases a <;> decide

theorem range_getD_eq_take (p : List Nat) (n : Nat) (hn : n ≤ p.length)
    (hp : ∀ x ∈ p, x < 256) :
    (List.range n).map (fun i => p.getD (0 + i) 0 % 256) = p.take n := by
  apply List.ext_getElem
  · simp [hn]
  · intro i h1 h2
    have hi : i < n := by simpa using h1
    have hlt : i < p.length := by omega
    simp only [List.getElem_map, List.getElem_range, List.getElem_take, Nat.zero_add]
    rw [List.getD_eq_getElem _ _ hlt]
    exact Nat.mod_eq_of_lt (hp _ (List.getElem_mem _))

/-- What `TM1637_SetMultipleDigit` does for a valid address when no byte seen on
the bus is left unacknowledged. -/
theorem SetMultipleDigit_acked (H : TM1637_Handler_t) (P : List Nat) (a c : Nat)
    (ha : a < 6)
    (hack : ∀ b ∈ (frames (TM1637_SetMultipleDigit H P a c []).2).flatten, b.ack = 0) :
    ∃ sent, sent.length = (if a + c > 6 then 6 - a else c) ∧
      sent.map SentByte.value
        = (List.range sent.length).map (fun i => P.getD (0 + i) 0 % 256) ∧
      frames (TM1637_SetMultipleDigit H P a c []).2
        = [[⟨0x40, 0⟩], ⟨0xC0 ||| a, 0⟩ :: sent] ∧
      (TM1637_SetMultipleDigit H P a c []).1 = TM1637_OK := by
  obtain ⟨a0, h | h⟩ := SetMultipleDigit_spec H P a c
  · obtain ⟨h1, _, h3, _, _⟩ := h
    rw [h3] at hack
    have := hack ⟨0x40, a0⟩ (by simp)
    rcases h1 with h1 | h1
    · exact absurd this h1
    · omega
  · obtain ⟨_, _, a1, r, sent, hb, hfr, hres, _, _⟩ := h
    rw [hfr] at hack
    have h1 : a1 = 0 := hack ⟨(0xC0 ||| a) % 256, a1⟩ (by simp)
    have hs : ∀ b ∈ sent, b.ack = 0 := fun b hb' => hack b (by simp [hb'])
    have hr : r = 0 ∧ sent.length = (if a + c > 6 then 6 - a else c) := by
      rcases hb.result with ⟨e1, e2, _⟩ | ⟨_, init, last, e2, e3, _⟩
      · exact ⟨e1, e2⟩
      · exact absurd (hs last (by simp [e2])) e3
    refine ⟨sent, hr.2, hb.values, ?_, ?_⟩
    · rw [hfr, h1, (addressCommand_range a ha).1]
    · rw [hres]; simp [h1, hr.1]

/-- C2: for a start address `a < 6` and a count `c` with `a + c ≤ 6`, when every
byte seen on the bus is acknowledged, `TM1637_SetMultipleDigit` emits exactly
two START/STOP frames, the first with exactly 1 byte and the second with
exactly `1 + c` bytes, leaves no byte outside a frame, and returns `TM1637_OK`. -/
theorem C2_two_frames_when_acked (H : TM1637_Handler_t) (p : List Nat) (a c : Nat)
    (ha : a < 6) (hc : a + c ≤ 6)
    (hack : ∀ b ∈ (frames (TM1637_SetMultipleDigit H p a c []).2).flatten, b.ack = 0) :
    (frames (TM1637_SetMultipleDigit H p a c []).2).map List.length = [1, 1 + c] ∧
    pending (TM1637_SetMultipleDigit H p a c []).2 = [] ∧
    (TM1637_SetMultipleDigit H p a c []).1 = TM1637_OK := by
  obtain ⟨sent, hlen, _, hfr, hres⟩ := SetMultipleDigit_acked H p a c ha hack
  have hc' : (if a + c > 6 then 6 - a else c) = c := by
    split
    · omega
    · rfl
  refine ⟨?_, ?_, hres⟩
  · rw [hfr]; simp [hlen, hc']; omega
  · obtain ⟨a0, h | h⟩ := SetMultipleDigit_spec H p a c
    · exact h.2.2.2.1.2.2.2.2.2
    · obtain ⟨_, _, _, _, _, _, _, _, hidle, _⟩ := h
      exact hidle.2.2.2.2.2

set_option maxRecDepth 100000 in
/-- C2 witness: three digits from address 1 on a bus that acknowledges. -/
theorem C2_two_frames_witness :
    (frames (TM1637_SetMultipleDigit ⟨fun _ => 0⟩ [0x3F, 0x06, 0x5B] 1 3 []).2).map
        List.length = [1, 1 + 3] ∧
    pending (TM1637_SetMultipleDigit ⟨fun _ => 0⟩ [0x3F, 0x06, 0x5B] 1 3 []).2 = [] ∧
    (TM1637_SetMultipleDigit ⟨fun _ => 0⟩ [0x3F, 0x06, 0x5B] 1 3 []).1 = TM1637_OK :=
  C2_two_frames_when_acked ⟨fun _ => 0⟩ [0x3F, 0x06, 0x5B] 1 3 (by decide) (by decide)
    (by decide)

/-- C3: for a start address `a < 6` and a count `c` with `a + c > 6`, the
number of pattern bytes `TM1637_SetMultipleDigit` puts on the bus is at most
`6 - a` whatever the acknowledge levels are; when every byte seen on the bus is
acknowledged it is exactly `6 - a` and the call returns `TM1637_OK`. -/
theorem C3_count_clamped (H : TM1637_Handler_t) (p : List Nat) (a c : Nat)
    (ha : a < 6) (hc : a + c > 6) :
    (patternBytes (TM1637_SetMultipleDigit H p a c []).2).length ≤ 6 - a ∧
    ((∀ b ∈ (frames (TM1637_SetMultipleDigit H p a c []).2).flatten, b.ack = 0) →
      (patternBytes (TM1637_SetMultipleDigit H p a c []).2).length = 6 - a ∧
      (TM1637_SetMultipleDigit H p a c []).1 = TM1637_OK) := by
  constructor
  · obtain ⟨a0, h | h⟩ := SetMultipleDigit_spec H p a c
    · simp [patternBytes, h.2.2.1]
    · obtain ⟨_, _, a1, r, sent, hb, hfr, _⟩ := h
      have := hb.length_le
      rw [if_pos hc] at this
      simpa [patternBytes, hfr] using this
  · intro hack
    obtain ⟨sent, hlen, _, hfr, hres⟩ := SetMultipleDigit_acked H p a c ha hack
    rw [if_pos hc] at hlen
    exact ⟨by simpa [patternBytes, hfr] using hlen, hres⟩

set_option maxRecDepth 100000 in
/-- C3 witness: five digits requested from address 4 on a bus that
acknowledges; two are sent. -/
theorem C3_count_clamped_witness :
    (∀ b ∈ (frames (TM1637_SetMultipleDigit ⟨fun _ => 0⟩ [1, 2, 3, 4, 5] 4 5 []).2).flatten,
      b.ack = 0) ∧
    (patternBytes (TM1637_SetMultipleDigit ⟨fun _ => 0⟩ [1, 2, 3, 4, 5] 4 5 []).2).length
      ≤ 6 - 4 ∧
    (patternBytes (TM1637_SetMultipleDigit ⟨fun _ => 0⟩ [1, 2, 3, 4, 5] 4 5 []).2).length
      = 6 - 4 ∧
    (TM1637_SetMultipleDigit ⟨fun _ => 0⟩ [1, 2, 3, 4, 5] 4 5 []).1 = TM1637_OK :=
  ⟨by decide,
   (C3_count_clamped ⟨fun _ => 0⟩ [1, 2, 3, 4, 5] 4 5 (by decide) (by decide)).1,
   (C3_count_clamped ⟨fun _ => 0⟩ [1, 2, 3, 4, 5] 4 5 (by decide) (by decide)).2 (by decide)⟩

/-- C4: for a start address `a < 6`, a count `c` with `a + c ≤ 6` and a
sequence `p` of at least `c` bytes, when every byte seen on the bus is
acknowledged the bytes on the bus are, in order: `0x40` alone in the first
frame, then in the second frame `0xC0 | a` (a value in `0xC0..0xC5`) followed
by `p[0], ..., p[c-1]` unchanged. -/
theorem C4_bytes_on_bus (H : TM1637_Handler_t) (p : List Nat) (a c : Nat)
    (ha : a < 6) (hc : a + c ≤ 6) (hlen : c ≤ p.length) (hp : ∀ x ∈ p, x < 256)
    (hack : ∀ b ∈ (frames (TM1637_SetMultipleDigit H p a c []).2).flatten, b.ack = 0) :
    (frames (TM1637_SetMultipleDigit H p a c []).2).map (List.map SentByte.value)
      = [[0x40], (0xC0 ||| a) :: p.take c] ∧
    0xC0 ≤ 0xC0 ||| a ∧ 0xC0 ||| a ≤ 0xC5 := by
  obtain ⟨sent, hl, hv, hfr, _⟩ := SetMultipleDigit_acked H p a c ha hack
  have hc' : (if a + c > 6 then 6 - a else c) = c := by
    split
    · omega
    · rfl
  rw [hc'] at hl
  rw [hl, range_getD_eq_take p c hlen hp] at hv
  refine ⟨?_, (addressCommand_range a ha).2⟩
  rw [hfr]
  simp [hv]

set_option maxRecDepth 100000 in
/-- C4 witness: the digits `0x3F, 0x06, 0x5B` written from address 1. -/
theorem C4_bytes_on_bus_witness :
    (frames (TM1637_SetMultipleDigit ⟨fun _ => 0⟩ [0x3F, 0x06, 0x5B] 1 3 []).2).map
        (List.map SentByte.value)
      = [[0x40], (0xC0 ||| 1) :: [0x3F, 0x06, 0x5B].take 3] ∧
    0xC0 ≤ 0xC0 ||| 1 ∧ 0xC0 ||| 1 ≤ 0xC5 :=
  C4_bytes_on_bus ⟨fun _ => 0⟩ [0x3F, 0x06, 0x5B] 1 3 (by decide) (by decide) (by decide)
    (by decide) (by decide)

theorem displayControl_byte (b s : Nat) :
    (((DisplayControl ||| (b &&& 0x07)) % 256) |||
        (if s ≠ 0 then ShowTurnOn else ShowTurnOff)) % 256 % 256
      = 0x80 ||| (b &&& 0x07) ||| (if s ≠ 0 then 0x08 else 0) ∧
    (0x80 ||| (b &&& 0x07) ||| (if s ≠ 0 then 0x08 else 0)) / 16 = 8 := by
  have hk : b &&& 0x07 ≤ 7 := Nat.and_le_right
  generalize b &&& 0x07 = k at hk
  simp only [DisplayControl, ShowTurnOn, ShowTurnOff]
  interval_cases k <;> by_cases hs : s = 0 <;> simp [hs]

/-- Everything `TM1637_ConfigDisplay` does on a fresh recorder. -/
theorem ConfigDisplay_spec (H : TM1637_Handler_t) (b s : Nat) :
    ∃ a0, frames (TM1637_ConfigDisplay H b s []).2
        = [[⟨0x80 ||| (b &&& 0x07) ||| (if s ≠ 0 then 0x08 else 0), a0⟩]] ∧
      (observe (TM1637_ConfigDisplay H b s []).2).isIdle ∧
      ackReads (TM1637_ConfigDisplay H b s []).2 = 1 := by
  obtain ⟨a0, _, hidle, hfr, hreads⟩ :=
    frame_one H ((((DisplayControl ||| (b &&& 0x07)) % 256) |||
        (if s ≠ 0 then ShowTurnOn else ShowTurnOff)) % 256) [] observe_nil_isIdle
  refine ⟨a0, ?_, hidle, ?_⟩
  · rw [← (displayControl_byte b s).1]
    simpa only [TM1637_ConfigDisplay, frames] using hfr
  · simpa only [TM1637_ConfigDisplay] using hreads

/-- C5: for every brightness `b` and display state `s`,
`TM1637_ConfigDisplay` puts exactly one START/STOP frame on the bus, holding
the single byte `0x80 | (b & 0x07) | (0x08 if s is non-zero, else 0)`, whose
top four bits are `1000`; with brightness 4 and the display on, that byte is
`0x8C`. -/
theorem C5_config_single_byte (H : TM1637_Handler_t) (b s : Nat) :
    (frames (TM1637_ConfigDisplay H b s []).2).map (List.map SentByte.value)
      = [[0x80 ||| (b &&& 0x07) ||| (if s ≠ 0 then 0x08 else 0)]] ∧
    pending (TM1637_ConfigDisplay H b s []).2 = [] ∧
    (0x80 ||| (b &&& 0x07) ||| (if s ≠ 0 then 0x08 else 0)) / 16 = 8 ∧
    (frames (TM1637_ConfigDisplay H 4 1 []).2).map (List.map SentByte.value)
      = [[0x8C]] := by
  obtain ⟨a0, hfr, hidle, _⟩ := ConfigDisplay_spec H b s
  obtain ⟨a1, hfr1, _, _⟩ := ConfigDisplay_spec H 4 1
  refine ⟨by rw [hfr]; rfl, hidle.2.2.2.2.2, (displayControl_byte b s).2, ?_⟩
  rw [hfr1]; rfl

/-- C6: for a start address `a < 6`, every count and every behaviour of the
data line, `TM1637_SetMultipleDigit` returns `TM1637_FAIL` exactly when some
byte it put on the bus was not acknowledged, and `TM1637_OK` exactly when every
byte it put on the bus was acknowledged (every byte lies in a frame). -/
theorem C6_fail_iff_some_byte_unacked (H : TM1637_Handler_t) (p : List Nat) (a c : Nat)
    (ha : a < 6) :
    ((TM1637_SetMultipleDigit H p a c []).1 = TM1637_FAIL ↔
      ∃ b ∈ (frames (TM1637_SetMultipleDigit H p a c []).2).flatten, b.ack ≠ 0) ∧
    ((TM1637_SetMultipleDigit H p a c []).1 = TM1637_OK ↔
      ∀ b ∈ (frames (TM1637_SetMultipleDigit H p a c []).2).flatten, b.ack = 0) ∧
    pending (TM1637_SetMultipleDigit H p a c []).2 = [] := by
  obtain ⟨a0, h | h⟩ := SetMultipleDigit_spec H p a c
  · obtain ⟨h1, hout, hfr, hidle, _⟩ := h
    have h0 : a0 ≠ 0 := by
      rcases h1 with h1 | h1
      · exact h1
      · omega
    rw [hfr, hout]
    refine ⟨by simp [h0], by simp [h0], ?_⟩
    rw [← hout]; exact hidle.2.2.2.2.2
  · obtain ⟨_, _, a1, r, sent, hb, hfr, hres, hidle, _⟩ := h
    rw [hfr, hres]
    refine ⟨?_, ?_, hidle.2.2.2.2.2⟩
    · rcases hb.result with ⟨e1, _, e3⟩ | ⟨e1, init, last, e2, e3, _⟩
      · by_cases h1 : a1 = 0
        · simp only [h1, e1, and_self, if_true]
          constructor
          · intro h; cases h
          · rintro ⟨b, hb', hne⟩
            simp at hb'
            rcases hb' with rfl | rfl | hb'
            · exact absurd rfl hne
            · exact absurd rfl hne
            · exact absurd (e3 b hb') hne
        · simp only [h1, false_and, if_false, true_iff]
          exact ⟨⟨(0xC0 ||| a) % 256, a1⟩, by simp, h1⟩
      · have hr : ¬ (a1 = 0 ∧ r = 0) := by rw [e1]; simp
        simp only [hr, if_false, true_iff]
        exact ⟨last, by simp [e2], e3⟩
    · rcases hb.result with ⟨e1, _, e3⟩ | ⟨e1, init, last, e2, e3, _⟩
      · by_cases h1 : a1 = 0
        · simp only [h1, e1, and_self, if_true, true_iff]
          intro b hb'
          simp at hb'
          rcases hb' with rfl | rfl | hb'
          · rfl
          · rfl
          · exact e3 b hb'
        · simp only [h1, false_and, if_false]
          constructor
          · intro h; cases h
          · intro hall
            exact absurd (hall ⟨(0xC0 ||| a) % 256, a1⟩ (by simp)) h1
      · have hr : ¬ (a1 = 0 ∧ r = 0) := by rw [e1]; simp
        simp only [hr, if_false]
        constructor
        · intro h; cases h
        · intro hall
          exact absurd (hall last (by simp [e2])) e3

set_option maxRecDepth 100000 in
/-- C6 witness: address 1 on a bus whose second acknowledge read is high. -/
theorem C6_fail_iff_witness :
    ((TM1637_SetMultipleDigit ⟨fun t => if ackReads t = 1 then 1 else 0⟩
        [0x3F, 0x06] 1 2 []).1 = TM1637_FAIL ↔
      ∃ b ∈ (frames (TM1637_SetMultipleDigit ⟨fun t => if ackReads t = 1 then 1 else 0⟩
        [0x3F, 0x06] 1 2 []).2).flatten, b.ack ≠ 0) ∧
    ((TM1637_SetMultipleDigit ⟨fun t => if ackReads t = 1 then 1 else 0⟩
        [0x3F, 0x06] 1 2 []).1 = TM1637_OK ↔
      ∀ b ∈ (frames (TM1637_SetMultipleDigit ⟨fun t => if ackReads t = 1 then 1 else 0⟩
        [0x3F, 0x06] 1 2 []).2).flatten, b.ack = 0) ∧
    pending (TM1637_SetMultipleDigit ⟨fun t => if ackReads t = 1 then 1 else 0⟩
        [0x3F, 0x06] 1 2 []).2 = [] :=
  C6_fail_iff_some_byte_unacked ⟨fun t => if ackReads t = 1 then 1 else 0⟩
    [0x3F, 0x06] 1 2 (by decide)

/-- C7: for every argument of `TM1637_SetMultipleDigit`, if the byte of the
first frame (the write-mode command of phase (a)) is not acknowledged, the call
returns `TM1637_FAIL` and its last calls are those of the STOP closing the
first frame: the trace is the phase (a) burst followed by the seven calls of
STOP and nothing else, the bus carries one frame with the one byte `0x40`, and
one acknowledge read was made. -/
theorem C7_phase_a_nak_aborts (H : TM1637_Handler_t) (p : List Nat) (a c : Nat)
    (hnak : ∃ b ∈ (frames (TM1637_SetMultipleDigit H p a c []).2).headD [], b.ack ≠ 0) :
    (TM1637_SetMultipleDigit H p a c []).1 = TM1637_FAIL ∧
    (TM1637_SetMultipleDigit H p a c []).2 =
      (TM1637_WriteBytes H [0x40] 1 (TM1637_StartCommunication [])).2 ++
        [Event.DioConfigOut, Event.ClkWrite 0, Event.DioWrite 0, Event.DelayUs 5,
         Event.ClkWrite 1, Event.DelayUs 5, Event.DioWrite 1] ∧
    (frames (TM1637_SetMultipleDigit H p a c []).2).map (List.map SentByte.value)
      = [[0x40]] ∧
    pending (TM1637_SetMultipleDigit H p a c []).2 = [] ∧
    ackReads (TM1637_SetMultipleDigit H p a c []).2 = 1 := by
  obtain ⟨a0, h | h⟩ := SetMultipleDigit_spec H p a c
  · obtain ⟨_, hout, hfr, hidle, hreads⟩ := h
    refine ⟨by rw [hout], by rw [hout, Stop_eq_append], by rw [hfr]; rfl,
      hidle.2.2.2.2.2, hreads⟩
  · obtain ⟨_, _, a1, r, sent, _, hfr, _⟩ := h
    rw [hfr] at hnak
    obtain ⟨b, hb, hne⟩ := hnak
    simp at hb
    subst hb
    exact absurd rfl hne

set_option maxRecDepth 100000 in
/-- C7 witness: a bus that never acknowledges. -/
theorem C7_phase_a_nak_witness :
    (∃ b ∈ (frames (TM1637_SetMultipleDigit ⟨fun _ => 1⟩ [0x3F] 0 1 []).2).headD [],
      b.ack ≠ 0) ∧
    (TM1637_SetMultipleDigit ⟨fun _ => 1⟩ [0x3F] 0 1 []).1 = TM1637_FAIL ∧
    (TM1637_SetMultipleDigit ⟨fun _ => 1⟩ [0x3F] 0 1 []).2 =
      (TM1637_WriteBytes ⟨fun _ => 1⟩ [0x40] 1 (TM1637_StartCommunication [])).2 ++
        [Event.DioConfigOut, Event.ClkWrite 0, Event.DioWrite 0, Event.DelayUs 5,
         Event.ClkWrite 1, Event.DelayUs 5, Event.DioWrite 1] ∧
    (frames (TM1637_SetMultipleDigit ⟨fun _ => 1⟩ [0x3F] 0 1 []).2).map
      (List.map SentByte.value) = [[0x40]] ∧
    pending (TM1637_SetMultipleDigit ⟨fun _ => 1⟩ [0x3F] 0 1 []).2 = [] ∧
    ackReads (TM1637_SetMultipleDigit ⟨fun _ => 1⟩ [0x3F] 0 1 []).2 = 1 :=
  ⟨by decide, C7_phase_a_nak_aborts ⟨fun _ => 1⟩ [0x3F] 0 1 (by decide)⟩

/-- C8: for every sequence `Data` of `n` bytes (`n < 256`) and every behaviour
of the data line, one byte burst `TM1637_WriteBytes` puts on the bus a prefix of
`Data`, unchanged and in order; every byte of it but the last is acknowledged
(so it ends at the first unacknowledged byte), and it is all of `Data` when
every byte is acknowledged; it makes exactly one acknowledge read per byte; it
returns `-1` exactly when some byte was not acknowledged and `0` otherwise
(also for `n = 0`). -/
theorem C8_burst_stops_at_first_nak (H : TM1637_Handler_t) (Data : List Nat)
    (_hlen : Data.length < 256) (hbytes : ∀ x ∈ Data, x < 256) :
    (pending (TM1637_WriteBytes H Data Data.length []).2).map SentByte.value
      = Data.take (pending (TM1637_WriteBytes H Data Data.length []).2).length ∧
    (∀ b ∈ (pending (TM1637_WriteBytes H Data Data.length []).2).dropLast, b.ack = 0) ∧
    ((∀ b ∈ pending (TM1637_WriteBytes H Data Data.length []).2, b.ack = 0) →
      (pending (TM1637_WriteBytes H Data Data.length []).2).length = Data.length) ∧
    ackReads (TM1637_WriteBytes H Data Data.length []).2
      = (pending (TM1637_WriteBytes H Data Data.length []).2).length ∧
    ((TM1637_WriteBytes H Data Data.length []).1 = -1 ↔
      ∃ b ∈ pending (TM1637_WriteBytes H Data Data.length []).2, b.ack ≠ 0) ∧
    ((TM1637_WriteBytes H Data Data.length []).1 = 0 ↔
      ∀ b ∈ pending (TM1637_WriteBytes H Data Data.length []).2, b.ack = 0) := by
  obtain ⟨sent, hb, _, _, _, _, hbytes', hreads⟩ :=
    WriteBytes_spec H Data Data.length [] rfl rfl
  have hpend : pending (TM1637_WriteBytes H Data Data.length []).2 = sent := by
    rw [pending, hbytes']; rfl
  have hreads' : ackReads (TM1637_WriteBytes H Data Data.length []).2 = sent.length := by
    rw [hreads]; simp [ackReads]
  rw [hpend]
  have hv := hb.values
  rw [range_getD_eq_take Data sent.length hb.length_le hbytes] at hv
  refine ⟨hv, ?_, ?_, hreads', ?_, ?_⟩
  · rcases hb.result with ⟨_, _, e3⟩ | ⟨_, init, last, e2, _, e4⟩
    · intro b hb'
      exact e3 b (List.mem_of_mem_dropLast hb')
    · rw [e2, List.dropLast_concat]
      exact e4
  · intro hall
    rcases hb.result with ⟨_, e2, _⟩ | ⟨_, init, last, e2, e3, _⟩
    · exact e2
    · exact absurd (hall last (by simp [e2])) e3
  · rcases hb.result with ⟨e1, _, e3⟩ | ⟨e1, init, last, e2, e3, _⟩
    · rw [e1]
      constructor
      · intro h; cases h
      · rintro ⟨b, hb', hne⟩
        exact absurd (e3 b hb') hne
    · rw [e1]
      exact ⟨fun _ => ⟨last, by simp [e2], e3⟩, fun _ => rfl⟩
  · rcases hb.result with ⟨e1, _, e3⟩ | ⟨e1, init, last, e2, e3, _⟩
    · rw [e1]
      exact ⟨fun _ => e3, fun _ => rfl⟩
    · rw [e1]
      constructor
      · intro h; cases h
      · intro hall
        exact absurd (hall last (by simp [e2])) e3

set_option maxRecDepth 100000 in
/-- C8 witness: four bytes on a bus whose third acknowledge read is high. -/
theorem C8_burst_witness :
    (pending (TM1637_WriteBytes ⟨fun t => if ackReads t = 2 then 1 else 0⟩
        [1, 2, 3, 4] [1, 2, 3, 4].length []).2).map SentByte.value
      = [1, 2, 3, 4].take (pending (TM1637_WriteBytes
          ⟨fun t => if ackReads t = 2 then 1 else 0⟩
          [1, 2, 3, 4] [1, 2, 3, 4].length []).2).length ∧
    (∀ b ∈ (pending (TM1637_WriteBytes ⟨fun t => if ackReads t = 2 then 1 else 0⟩
        [1, 2, 3, 4] [1, 2, 3, 4].length []).2).dropLast, b.ack = 0) ∧
    ((∀ b ∈ pending (TM1637_WriteBytes ⟨fun t => if ackReads t = 2 then 1 else 0⟩
        [1, 2, 3, 4] [1, 2, 3, 4].length []).2, b.ack = 0) →
      (pending (TM1637_WriteBytes ⟨fun t => if ackReads t = 2 then 1 else 0⟩
        [1, 2, 3, 4] [1, 2, 3, 4].length []).2).length = [1, 2, 3, 4].length) ∧
    ackReads (TM1637_WriteBytes ⟨fun t => if ackReads t = 2 then 1 else 0⟩
        [1, 2, 3, 4] [1, 2, 3, 4].length []).2
      = (pending (TM1637_WriteBytes ⟨fun t => if ackReads t = 2 then 1 else 0⟩
        [1, 2, 3, 4] [1, 2, 3, 4].length []).2).length ∧
    ((TM1637_WriteBytes ⟨fun t => if ackReads t = 2 then 1 else 0⟩
        [1, 2, 3, 4] [1, 2, 3, 4].length []).1 = -1 ↔
      ∃ b ∈ pending (TM1637_WriteBytes ⟨fun t => if ackReads t = 2 then 1 else 0⟩
        [1, 2, 3, 4] [1, 2, 3, 4].length []).2, b.ack ≠ 0) ∧
    ((TM1637_WriteBytes ⟨fun t => if ackReads t = 2 then 1 else 0⟩
        [1, 2, 3, 4] [1, 2, 3, 4].length []).1 = 0 ↔
      ∀ b ∈ pending (TM1637_WriteBytes ⟨fun t => if ackReads t = 2 then 1 else 0⟩
        [1, 2, 3, 4] [1, 2, 3, 4].length []).2, b.ack = 0) :=
  C8_burst_stops_at_first_nak ⟨fun t => if ackReads t = 2 then 1 else 0⟩ [1, 2, 3, 4]
    (by decide) (by decide)

/-- C9 (as amended): in every `TM1637_SetMultipleDigit` call no byte follows
an unacknowledged byte of the same byte burst, and an unacknowledged phase (a)
command ends the call. On the bus there is either the first frame alone, with
its one byte, or the first frame with its byte acknowledged and a second frame
made of the address command followed by pattern bytes that are all
acknowledged except possibly the last. -/
theorem C9_abort_within_burst (H : TM1637_Handler_t) (p : List Nat) (a c : Nat) :
    ∃ b0, frames (TM1637_SetMultipleDigit H p a c []).2 = [[b0]] ∨
      (b0.ack = 0 ∧ ∃ b1 sent,
        frames (TM1637_SetMultipleDigit H p a c []).2 = [[b0], b1 :: sent] ∧
        ∀ b ∈ sent.dropLast, b.ack = 0) := by
  obtain ⟨a0, h | h⟩ := SetMultipleDigit_spec H p a c
  · exact ⟨⟨0x40, a0⟩, Or.inl h.2.2.1⟩
  · obtain ⟨_, _, a1, r, sent, hb, hfr, _⟩ := h
    refine ⟨⟨0x40, 0⟩, Or.inr ⟨rfl, ⟨(0xC0 ||| a) % 256, a1⟩, sent, hfr, ?_⟩⟩
    rcases hb.result with ⟨_, _, e3⟩ | ⟨_, init, last, e2, _, e4⟩
    · intro b hb'
      exact e3 b (List.mem_of_mem_dropLast hb')
    · rw [e2, List.dropLast_concat]
      exact e4

set_option maxRecDepth 100000 in
/-- C9 as stated fails: when the address command `0xC1` of the second frame is
not acknowledged, the three pattern bytes are clocked out after it all the
same, and the call returns `TM1637_FAIL`. -/
theorem C9_counterexample :
    frames (TM1637_SetMultipleDigit ⟨fun t => if ackReads t = 1 then 1 else 0⟩
        [0x3F, 0x06, 0x5B] 1 3 []).2
      = [[⟨0x40, 0⟩], [⟨0xC1, 1⟩, ⟨0x3F, 0⟩, ⟨0x06, 0⟩, ⟨0x5B, 0⟩]] ∧
    (TM1637_SetMultipleDigit ⟨fun t => if ackReads t = 1 then 1 else 0⟩
        [0x3F, 0x06, 0x5B] 1 3 []).1 = TM1637_FAIL := by
  decide

/-- C10: for every brightness, display state and behaviour of the data line,
`TM1637_ConfigDisplay` returns `TM1637_OK`, also when its byte is not
acknowledged; its frame is closed: the trace ends with the seven calls of STOP,
the analyser has seen exactly one complete frame and is outside any frame. -/
theorem C10_config_always_ok (H : TM1637_Handler_t) (b s : Nat) :
    (TM1637_ConfigDisplay H b s []).1 = TM1637_OK ∧
    [Event.DioConfigOut, Event.ClkWrite 0, Event.DioWrite 0, Event.DelayUs 5,
     Event.ClkWrite 1, Event.DelayUs 5, Event.DioWrite 1]
      <:+ (TM1637_ConfigDisplay H b s []).2 ∧
    (frames (TM1637_ConfigDisplay H b s []).2).length = 1 ∧
    (observe (TM1637_ConfigDisplay H b s []).2).inFrame = false := by
  obtain ⟨a0, hfr, hidle, _⟩ := ConfigDisplay_spec H b s
  refine ⟨rfl, ?_, by rw [hfr]; rfl, hidle.2.2.2.2.1⟩
  simp only [TM1637_ConfigDisplay, Stop_eq_append]
  exact List.suffix_append _ _

/-! ## Shape of the recorded calls -/

theorem bits_append (n : Nat) : ∀ (B : Nat) (t : Trace),
    WriteBytes_bits n B t = t ++ WriteBytes_bits n B [] := by
  induction n with
  | zero => intro B t; simp [WriteBytes_bits]
  | succ n ih =>
    intro B t
    simp only [WriteBytes_bits]
    rw [ih (B >>> 1) (DelayUs _ _), ih (B >>> 1) (DelayUs CommunicationDelayUs
      (ClkWrite 1 (DelayUs CommunicationDelayUs (DioWrite (B &&& 0x01) (ClkWrite 0 [])))))]
    simp [ClkWrite, DioWrite, DelayUs]

theorem bits_eight (B : Nat) :
    WriteBytes_bits 8 B [] =
      ((List.range 8).map (fun i =>
        [Event.ClkWrite 0, Event.DioWrite (B / 2 ^ i % 2), Event.DelayUs 5,
         Event.ClkWrite 1, Event.DelayUs 5])).flatten := by
  simp only [WriteBytes_bits, ClkWrite, DioWrite, DelayUs, CommunicationDelayUs,
    Nat.and_one_is_mod, Nat.shiftRight_eq_div_pow, Nat.div_div_eq_div_mul]
  simp [List.range_succ]

theorem byte_trace (H : TM1637_Handler_t) (B : Nat) (t : Trace) :
    (WriteBytes_byte H B t).2 =
      t ++ [Event.DioConfigOut] ++ WriteBytes_bits 8 B [] ++
        [Event.ClkWrite 0, Event.DioConfigIn, Event.DioWrite 1, Event.DelayUs 5,
         Event.DioRead (WriteBytes_byte H B t).1,
         Event.ClkWrite 1, Event.DelayUs 5, Event.ClkWrite 0] := by
  simp only [WriteBytes_byte]
  rw [bits_append 8 B (DioConfigOut t)]
  simp [ClkWrite, DioWrite, DelayUs, DioConfigIn, DioConfigOut, DioRead,
    CommunicationDelayUs]

theorem Start_eq_append (t : Trace) :
    TM1637_StartCommunication t =
      t ++ [Event.DioConfigOut, Event.DioWrite 1, Event.ClkWrite 1, Event.DelayUs 5,
            Event.DioWrite 0] := by
  simp [TM1637_StartCommunication, DioConfigOut, ClkWrite, DioWrite, DelayUs,
    CommunicationDelayUs]

/-- C11: for every byte value `B` below 256, the bit loop that transmits `B`
makes exactly eight data-line writes, one before each of the eight clock
pulses; the `i`-th level written is bit `i` of `B` (least significant first),
each is 0 or 1, and the levels weighted by `2 ^ i` add up to `B`. -/
theorem C11_bits_lsb_first (H : TM1637_Handler_t) (B : Nat) (t : Trace) (hB : B < 256) :
    (WriteBytes_byte H B t).2 =
      t ++ [Event.DioConfigOut] ++ WriteBytes_bits 8 B [] ++
        [Event.ClkWrite 0, Event.DioConfigIn, Event.DioWrite 1, Event.DelayUs 5,
         Event.DioRead (WriteBytes_byte H B t).1,
         Event.ClkWrite 1, Event.DelayUs 5, Event.ClkWrite 0] ∧
    WriteBytes_bits 8 B [] =
      ((List.range 8).map (fun i =>
        [Event.ClkWrite 0, Event.DioWrite (B / 2 ^ i % 2), Event.DelayUs 5,
         Event.ClkWrite 1, Event.DelayUs 5])).flatten ∧
    dioWrites (WriteBytes_bits 8 B []) = (List.range 8).map (fun i => B / 2 ^ i % 2) ∧
    (dioWrites (WriteBytes_bits 8 B [])).length = 8 ∧
    (∀ l ∈ dioWrites (WriteBytes_bits 8 B []), l = 0 ∨ l = 1) ∧
    ((List.range 8).map
      (fun i => (dioWrites (WriteBytes_bits 8 B [])).getD i 0 * 2 ^ i)).sum = B := by
  have hw : dioWrites (WriteBytes_bits 8 B []) =
      (List.range 8).map (fun i => B / 2 ^ i % 2) := by
    rw [bits_eight]
    simp [dioWrites, List.range_succ]
  refine ⟨byte_trace H B t, bits_eight B, hw, by rw [hw]; simp, ?_, ?_⟩
  · intro l hl
    rw [hw] at hl
    obtain ⟨i, _, rfl⟩ := List.mem_map.mp hl
    omega
  · rw [hw]
    simp [List.range_succ]
    omega

/-- C11 witness: the byte `0xA5`. -/
theorem C11_bits_lsb_first_witness :
    dioWrites (WriteBytes_bits 8 0xA5 []) = (List.range 8).map (fun i => 0xA5 / 2 ^ i % 2) ∧
    ((List.range 8).map
      (fun i => (dioWrites (WriteBytes_bits 8 0xA5 [])).getD i 0 * 2 ^ i)).sum = 0xA5 :=
  ⟨(C11_bits_lsb_first ⟨fun _ => 0⟩ 0xA5 [] (by decide)).2.2.1,
   (C11_bits_lsb_first ⟨fun _ => 0⟩ 0xA5 [] (by decide)).2.2.2.2.2⟩

/-! ## The clock level at the acknowledge reads -/

theorem clockAtReadsFrom_append (a b : Trace) : ∀ m : Monitor,
    clockAtReadsFrom m (a ++ b) =
      clockAtReadsFrom m a ++ clockAtReadsFrom (a.foldl Monitor.step m) b := by
  induction a with
  | nil => intro m; rfl
  | cons e es ih =>
    intro m
    cases e <;> simp [clockAtReadsFrom, ih]

theorem clockAtReads_append (t es : Trace) :
    clockAtReads (t ++ es) = clockAtReads t ++ clockAtReadsFrom (observe t) es := by
  simp [clockAtReads, clockAtReadsFrom_append, observe]

theorem clockAtReads_length (t : Trace) : ∀ m : Monitor,
    (clockAtReadsFrom m t).length = ackReads t := by
  induction t with
  | nil => intro m; rfl
  | cons e es ih =>
    intro m
    cases e <;> simp [clockAtReadsFrom, ih, ackReads]

theorem clockAtReads_Start (t : Trace) :
    clockAtReads (TM1637_StartCommunication t) = clockAtReads t := by
  rw [Start_eq_append, clockAtReads_append]
  simp [clockAtReadsFrom]

theorem clockAtReads_Stop (t : Trace) :
    clockAtReads (TM1637_StopCommunication t) = clockAtReads t := by
  rw [Stop_eq_append, clockAtReads_append]
  simp [clockAtReadsFrom]

theorem clockAtReads_byte (H : TM1637_Handler_t) (B : Nat) (t : Trace) :
    clockAtReads (WriteBytes_byte H B t).2 = clockAtReads t ++ [false] := by
  rw [byte_trace, bits_eight, List.append_assoc, List.append_assoc, clockAtReads_append]
  rfl

theorem clockAtReads_loop (H : TM1637_Handler_t) (Data : List Nat) (n : Nat) :
    ∀ (j : Nat) (res : Int) (t : Trace), (∀ c ∈ clockAtReads t, c = false) →
      ∀ c ∈ clockAtReads (WriteBytes_loop H Data n j res t).2, c = false := by
  induction n with
  | zero => intro j res t h; simpa [WriteBytes_loop] using h
  | succ n ih =>
    intro j res t h
    have hb : ∀ c ∈ clockAtReads (WriteBytes_byte H (Data.getD j 0 % 256) t).2,
        c = false := by
      rw [clockAtReads_byte]
      intro c hc
      rcases List.mem_append.mp hc with hc | hc
      · exact h c hc
      · simpa using hc
    simp only [WriteBytes_loop]
    split
    · exact hb
    · exact ih _ _ _ hb

theorem clockAtReads_WriteBytes (H : TM1637_Handler_t) (Data : List Nat) (n : Nat)
    (t : Trace) (h : ∀ c ∈ clockAtReads t, c = false) :
    ∀ c ∈ clockAtReads (TM1637_WriteBytes H Data n t).2, c = false := by
  have := clockAtReads_loop H Data n 0 0 t h
  simpa [TM1637_WriteBytes, DelayUs, clockAtReads_append, clockAtReadsFrom] using this

/-- The calls of `TM1637_SetMultipleDisplayRegister`, from any trace: the first
frame alone, or both frames. -/
theorem SetMultiple_trace (H : TM1637_Handler_t) (P : List Nat) (a c : Nat) (t : Trace) :
    (TM1637_SetMultipleDisplayRegister H P a c t).2 =
      TM1637_StopCommunication
        (TM1637_WriteBytes H [0x40] 1 (TM1637_StartCommunication t)).2 ∨
    (TM1637_SetMultipleDisplayRegister H P a c t).2 =
      TM1637_StopCommunication
        (TM1637_WriteBytes H P (if a + c > 6 then 6 - a else c)
          (TM1637_WriteBytes H [(0xC0 ||| a) % 256] 1
            (TM1637_StartCommunication (TM1637_StopCommunication
              (TM1637_WriteBytes H [0x40] 1 (TM1637_StartCommunication t)).2))).2).2 := by
  simp only [TM1637_SetMultipleDisplayRegister, dataCommand_eq, MaxNumOfDigits,
    AddressCommandSetting]
  by_cases h1 : (TM1637_WriteBytes H [0x40] 1 (TM1637_StartCommunication t)).1 < 0
  · left; simp only [h1, if_true]
  · by_cases h2 : a ≥ 6
    · left; simp only [h1, h2, if_true, if_false]
    · right; simp only [h1, h2, if_false, ite_pair]

theorem clockAtReads_SetMultiple (H : TM1637_Handler_t) (P : List Nat) (a c : Nat)
    (t : Trace) (h : ∀ x ∈ clockAtReads t, x = false) :
    ∀ x ∈ clockAtReads (TM1637_SetMultipleDisplayRegister H P a c t).2, x = false := by
  have h1 : ∀ x ∈ clockAtReads (TM1637_StopCommunication
      (TM1637_WriteBytes H [0x40] 1 (TM1637_StartCommunication t)).2), x = false := by
    rw [clockAtReads_Stop]
    exact clockAtReads_WriteBytes H _ _ _ (by rw [clockAtReads_Start]; exact h)
  rcases SetMultiple_trace H P a c t with e | e
  · rw [e]; exact h1
  · rw [e, clockAtReads_Stop]
    exact clockAtReads_WriteBytes H P _ _
      (clockAtReads_WriteBytes H _ 1 _ (by rw [clockAtReads_Start]; exact h1))

theorem SetMultipleDigit_trace_eq (H : TM1637_Handler_t) (P : List Nat) (a c : Nat)
    (t : Trace) :
    (TM1637_SetMultipleDigit H P a c t).2
      = (TM1637_SetMultipleDisplayRegister H P a c t).2 := by
  simp only [TM1637_SetMultipleDigit]; split <;> rfl

theorem all_false_eq_replicate (l : List Bool) (n : Nat) (hn : l.length = n)
    (h : ∀ x ∈ l, x = false) : l = List.replicate n false :=
  List.eq_replicate_iff.mpr ⟨hn, h⟩

/-- C12 (as amended): for every transmitted byte, after the eighth data bit the
clock is driven low, the data line is switched to input (and written high), the
delay passes, and the acknowledge level is read while the clock is still low:
the `DioRead` comes after the clock write that lowers the clock and before the
clock write that raises the ninth pulse, which then is held for the delay and
returned low. In every byte burst, `TM1637_ConfigDisplay` and
`TM1637_SetMultipleDigit` call, the clock is low at each `DioRead`. -/
theorem C12_ack_read_while_clock_low (H : TM1637_Handler_t) (B : Nat) (t : Trace)
    (Data p : List Nat) (n a c b s : Nat) :
    (WriteBytes_byte H B t).2 =
      t ++ [Event.DioConfigOut] ++ WriteBytes_bits 8 B [] ++
        [Event.ClkWrite 0, Event.DioConfigIn, Event.DioWrite 1, Event.DelayUs 5,
         Event.DioRead (WriteBytes_byte H B t).1,
         Event.ClkWrite 1, Event.DelayUs 5, Event.ClkWrite 0] ∧
    clockAtReads (WriteBytes_byte H B []).2 = [false] ∧
    clockAtReads (TM1637_WriteBytes H Data n []).2
      = List.replicate (ackReads (TM1637_WriteBytes H Data n []).2) false ∧
    clockAtReads (TM1637_ConfigDisplay H b s []).2
      = List.replicate (ackReads (TM1637_ConfigDisplay H b s []).2) false ∧
    clockAtReads (TM1637_SetMultipleDigit H p a c []).2
      = List.replicate (ackReads (TM1637_SetMultipleDigit H p a c []).2) false := by
  have h0 : ∀ x ∈ clockAtReads [], x = false := by simp [clockAtReads, clockAtReadsFrom]
  refine ⟨byte_trace H B t, ?_, ?_, ?_, ?_⟩
  · rw [clockAtReads_byte]; rfl
  · exact all_false_eq_replicate _ _ (clockAtReads_length _ _)
      (clockAtReads_WriteBytes H Data n [] h0)
  · refine all_false_eq_replicate _ _ (clockAtReads_length _ _) ?_
    simp only [TM1637_ConfigDisplay]
    rw [clockAtReads_Stop]
    exact clockAtReads_WriteBytes H _ _ _ (by rw [clockAtReads_Start]; exact h0)
  · refine all_false_eq_replicate _ _ (clockAtReads_length _ _) ?_
    rw [SetMultipleDigit_trace_eq]
    exact clockAtReads_SetMultiple H p a c [] h0

/-- C12 as stated fails: when the byte `0xA5` is transmitted, the last eight
calls are clock low, data line to input, data high, delay, the acknowledge
read, and only then the ninth pulse (clock high, delay, clock low); the clock
is low at the read. -/
theorem C12_counterexample :
    (WriteBytes_byte ⟨fun _ => 0⟩ 0xA5 []).2.drop 41 =
      [Event.ClkWrite 0, Event.DioConfigIn, Event.DioWrite 1, Event.DelayUs 5,
       Event.DioRead 0, Event.ClkWrite 1, Event.DelayUs 5, Event.ClkWrite 0] ∧
    clockAtReads (WriteBytes_byte ⟨fun _ => 0⟩ 0xA5 []).2 = [false] := by
  decide

/-- C13: START is the five calls data line to output, data high, clock high,
delay, data low, so the data line falls while the clock is high; STOP is the
seven calls data line to output, clock low, data low, delay, clock high, delay,
data high, so the data line is driven low and then makes its final rise while
the clock is high, one delay after the clock rose. Whatever happened before,
the analyser sees both lines high before the last call of START and is inside
a frame after it, and sees the clock high and the data line low before the last
call of STOP and is outside any frame after it. Every operation brackets each of its
frames by START and STOP. -/
theorem C13_start_stop_bracket (H : TM1637_Handler_t) (t : Trace) (p : List Nat)
    (a c b s : Nat) :
    (TM1637_StartCommunication t =
      t ++ [Event.DioConfigOut, Event.DioWrite 1, Event.ClkWrite 1, Event.DelayUs 5,
            Event.DioWrite 0] ∧
     (observe (t ++ [Event.DioConfigOut, Event.DioWrite 1, Event.ClkWrite 1,
        Event.DelayUs 5])).clk = true ∧
     (observe (t ++ [Event.DioConfigOut, Event.DioWrite 1, Event.ClkWrite 1,
        Event.DelayUs 5])).dio = true ∧
     (observe (TM1637_StartCommunication t)).clk = true ∧
     (observe (TM1637_StartCommunication t)).dio = false ∧
     (observe (TM1637_StartCommunication t)).inFrame = true) ∧
    (TM1637_StopCommunication t =
      t ++ [Event.DioConfigOut, Event.ClkWrite 0, Event.DioWrite 0, Event.DelayUs 5,
            Event.ClkWrite 1, Event.DelayUs 5, Event.DioWrite 1] ∧
     (observe (t ++ [Event.DioConfigOut, Event.ClkWrite 0, Event.DioWrite 0,
        Event.DelayUs 5, Event.ClkWrite 1, Event.DelayUs 5])).clk = true ∧
     (observe (t ++ [Event.DioConfigOut, Event.ClkWrite 0, Event.DioWrite 0,
        Event.DelayUs 5, Event.ClkWrite 1, Event.DelayUs 5])).dio = false ∧
     (observe (TM1637_StopCommunication t)).clk = true ∧
     (observe (TM1637_StopCommunication t)).dio = true ∧
     (observe (TM1637_StopCommunication t)).inFrame = false) ∧
    (∃ D, (TM1637_ConfigDisplay H b s t).2 =
      TM1637_StopCommunication
        (TM1637_WriteBytes H [D] 1 (TM1637_StartCommunication t)).2) ∧
    ((TM1637_SetMultipleDigit H p a c t).2 =
        TM1637_StopCommunication
          (TM1637_WriteBytes H [0x40] 1 (TM1637_StartCommunication t)).2 ∨
      (TM1637_SetMultipleDigit H p a c t).2 =
        TM1637_StopCommunication
          (TM1637_WriteBytes H p (if a + c > 6 then 6 - a else c)
            (TM1637_WriteBytes H [(0xC0 ||| a) % 256] 1
              (TM1637_StartCommunication (TM1637_StopCommunication
                (TM1637_WriteBytes H [0x40] 1 (TM1637_StartCommunication t)).2))).2).2) := by
  refine ⟨⟨Start_eq_append t, ?_⟩, ⟨Stop_eq_append t, ?_⟩, ⟨_, rfl⟩, ?_⟩
  · rw [Start_eq_append]
    simp only [observe_append]
    generalize observe t = m
    rcases m with ⟨clk, dio, nbits, cur, ack, inFrame, bytes, frames⟩
    by_cases hn : nbits < 8 <;> cases clk <;> cases dio <;> cases inFrame <;>
      simp [Monitor.step, hn]
  · rw [Stop_eq_append]
    simp only [observe_append]
    generalize observe t = m
    rcases m with ⟨clk, dio, nbits, cur, ack, inFrame, bytes, frames⟩
    by_cases hn : nbits < 8 <;> cases clk <;> cases dio <;> cases inFrame <;>
      simp [Monitor.step, hn]
  · rw [SetMultipleDigit_trace_eq]
    exact SetMultiple_trace H p a c t

/-! ## The hexadecimal encoder -/

theorem and_0x80_cases (d : Nat) : d &&& 0x80 = 0 ∨ d &&& 0x80 = 0x80 := by
  have h := Nat.and_two_pow d 7
  simp only [Nat.reducePow] at h
  rw [h]
  cases d.testBit 7 <;> simp

/-- The value of `DigitDataHEX` for every argument, by the kind of its low
seven bits. -/
theorem pattern_cases (d : Nat) :
    (d &&& 0x7F ≤ 15 ∧
      SetSingleDigit_HEX_pattern d
        = some (HexTo7Seg.getD (d &&& 0x7F) 0 ||| (d &&& 0x80))) ∨
    ('A'.toNat ≤ d &&& 0x7F ∧ d &&& 0x7F ≤ 'F'.toNat ∧
      SetSingleDigit_HEX_pattern d
        = some (HexTo7Seg.getD ((d &&& 0x7F) - 'A'.toNat + 10) 0 ||| (d &&& 0x80))) ∨
    ('a'.toNat ≤ d &&& 0x7F ∧ d &&& 0x7F ≤ 'f'.toNat ∧
      SetSingleDigit_HEX_pattern d
        = some (HexTo7Seg.getD ((d &&& 0x7F) - 'a'.toNat + 10) 0 ||| (d &&& 0x80))) ∨
    (15 < d &&& 0x7F ∧ ¬ ('A'.toNat ≤ d &&& 0x7F ∧ d &&& 0x7F ≤ 'F'.toNat) ∧
      ¬ ('a'.toNat ≤ d &&& 0x7F ∧ d &&& 0x7F ≤ 'f'.toNat) ∧
      SetSingleDigit_HEX_pattern d = some 0) := by
  have hv : d &&& 0x7F ≤ 0x7F := Nat.and_le_right
  have hq := and_0x80_cases d
  simp only [SetSingleDigit_HEX_pattern]
  generalize d &&& 0x7F = v at hv ⊢
  generalize d &&& 0x80 = q at hq ⊢
  rcases hq with rfl | rfl <;> interval_cases v <;> decide

/-- C14: for every value `v` in 0..15 and either decimal-point flag `dp`
(bit 7 of the argument of `TM1637_SetSingleDigit_HEX`), the pattern handed to
`TM1637_SetSingleDigit` is `T[v]` OR'd with `0x80` if `dp` is set, `T` being
the table `0x3F, 0x06, ..., 0x71`; no argument makes the table access leave the
table. -/
theorem C14_hex_pattern (H : TM1637_Handler_t) (v pos : Nat) (dp : Bool) (t : Trace)
    (hv : v ≤ 15) :
    SetSingleDigit_HEX_pattern (v ||| (if dp then 0x80 else 0))
      = some (([0x3F, 0x06, 0x5B, 0x4F, 0x66, 0x6D, 0x7D, 0x07,
                0x7F, 0x6F, 0x77, 0x7C, 0x39, 0x5E, 0x79, 0x71] : List Nat).getD v 0
              ||| (if dp then 0x80 else 0)) ∧
    TM1637_SetSingleDigit_HEX H (v ||| (if dp then 0x80 else 0)) pos t
      = some (TM1637_SetSingleDigit H
          ((([0x3F, 0x06, 0x5B, 0x4F, 0x66, 0x6D, 0x7D, 0x07,
              0x7F, 0x6F, 0x77, 0x7C, 0x39, 0x5E, 0x79, 0x71] : List Nat).getD v 0)
            ||| (if dp then 0x80 else 0)) pos t) ∧
    (∀ d : Nat, (SetSingleDigit_HEX_pattern d).isSome = true) := by
  have h1 : SetSingleDigit_HEX_pattern (v ||| (if dp then 0x80 else 0))
      = some (([0x3F, 0x06, 0x5B, 0x4F, 0x66, 0x6D, 0x7D, 0x07,
                0x7F, 0x6F, 0x77, 0x7C, 0x39, 0x5E, 0x79, 0x71] : List Nat).getD v 0
              ||| (if dp then 0x80 else 0)) := by
    interval_cases v <;> cases dp <;> decide
  refine ⟨h1, ?_, ?_⟩
  · simp only [TM1637_SetSingleDigit_HEX, h1, Option.map_some']
  · intro d
    rcases pattern_cases d with h | h | h | h
    · rw [h.2]; rfl
    · rw [h.2.2]; rfl
    · rw [h.2.2]; rfl
    · rw [h.2.2.2]; rfl

/-- C14 witness: the digit 5 with the decimal point. -/
theorem C14_hex_pattern_witness :
    SetSingleDigit_HEX_pattern (5 ||| (if true then 0x80 else 0))
      = some (([0x3F, 0x06, 0x5B, 0x4F, 0x66, 0x6D, 0x7D, 0x07,
                0x7F, 0x6F, 0x77, 0x7C, 0x39, 0x5E, 0x79, 0x71] : List Nat).getD 5 0
              ||| (if true then 0x80 else 0)) :=
  (C14_hex_pattern ⟨fun _ => 0⟩ 5 0 true [] (by decide)).1

/-- C15: for every `k` in 0..5 and either decimal-point flag, the upper-case
letter `'A' + k`, the lower-case letter `'a' + k` and the value `10 + k` are
encoded to the same pattern, the table entry of `10 + k` OR'd with the
decimal-point bit. -/
theorem C15_letters_case_insensitive (k : Nat) (dp : Bool) (hk : k ≤ 5) :
    SetSingleDigit_HEX_pattern (('A'.toNat + k) ||| (if dp then 0x80 else 0))
      = some (HexTo7Seg.getD (10 + k) 0 ||| (if dp then 0x80 else 0)) ∧
    SetSingleDigit_HEX_pattern (('a'.toNat + k) ||| (if dp then 0x80 else 0))
      = some (HexTo7Seg.getD (10 + k) 0 ||| (if dp then 0x80 else 0)) ∧
    SetSingleDigit_HEX_pattern ((10 + k) ||| (if dp then 0x80 else 0))
      = some (HexTo7Seg.getD (10 + k) 0 ||| (if dp then 0x80 else 0)) := by
  interval_cases k <;> cases dp <;> decide

/-- C15 witness: the letters `'C'`, `'c'` and the value 12, decimal point set. -/
theorem C15_letters_witness :
    SetSingleDigit_HEX_pattern (('A'.toNat + 2) ||| (if true then 0x80 else 0))
      = some (HexTo7Seg.getD (10 + 2) 0 ||| (if true then 0x80 else 0)) ∧
    SetSingleDigit_HEX_pattern (('a'.toNat + 2) ||| (if true then 0x80 else 0))
      = some (HexTo7Seg.getD (10 + 2) 0 ||| (if true then 0x80 else 0)) ∧
    SetSingleDigit_HEX_pattern ((10 + 2) ||| (if true then 0x80 else 0))
      = some (HexTo7Seg.getD (10 + 2) 0 ||| (if true then 0x80 else 0)) :=
  C15_letters_case_insensitive 2 true (by decide)

theorem table_or_0x80 (i : Nat) :
    (HexTo7Seg.getD i 0 ||| 0x80) &&& 0x80 = 0x80 ∧ HexTo7Seg.getD i 0 ||| 0 ≤ 0x7F := by
  by_cases hi : i < 16
  · interval_cases i <;> decide
  · have : HexTo7Seg.getD i 0 = 0 := by
      simp only [List.getD_eq_getElem?_getD]
      rw [List.getElem?_eq_none (by simpa [HexTo7Seg] using hi)]
      rfl
    rw [this]; decide

/-- C16 (as amended): for every argument of `TM1637_SetSingleDigit_HEX` whose
bit 7 is set and whose low seven bits are a value 0..15 or an ASCII letter
`'A'..'F'`, `'a'..'f'`, the pattern handed to `TM1637_SetSingleDigit` has bit 7
set. -/
theorem C16_decimal_point_bit_set (H : TM1637_Handler_t) (d pos : Nat) (t : Trace)
    (hdp : d &&& 0x80 ≠ 0)
    (hv : d &&& 0x7F ≤ 15 ∨ ('A'.toNat ≤ d &&& 0x7F ∧ d &&& 0x7F ≤ 'F'.toNat) ∨
      ('a'.toNat ≤ d &&& 0x7F ∧ d &&& 0x7F ≤ 'f'.toNat)) :
    ∃ p, SetSingleDigit_HEX_pattern d = some p ∧ p &&& 0x80 = 0x80 ∧
      TM1637_SetSingleDigit_HEX H d pos t = some (TM1637_SetSingleDigit H p pos t) := by
  have hq : d &&& 0x80 = 0x80 := by
    rcases and_0x80_cases d with h | h
    · exact absurd h hdp
    · exact h
  have key : ∀ i, SetSingleDigit_HEX_pattern d = some (HexTo7Seg.getD i 0 ||| (d &&& 0x80)) →
      ∃ p, SetSingleDigit_HEX_pattern d = some p ∧ p &&& 0x80 = 0x80 ∧
        TM1637_SetSingleDigit_HEX H d pos t = some (TM1637_SetSingleDigit H p pos t) := by
    intro i hi
    refine ⟨_, hi, ?_, ?_⟩
    · rw [hq]; exact (table_or_0x80 i).1
    · simp only [TM1637_SetSingleDigit_HEX, hi, Option.map_some']
  rcases pattern_cases d with h | h | h | h
  · exact key _ h.2
  · exact key _ h.2.2
  · exact key _ h.2.2
  · rcases hv with hv | hv | hv
    · omega
    · exact absurd hv h.2.1
    · exact absurd hv h.2.2.1

/-- C16 witness: the letter `'b'` with bit 7 set. -/
theorem C16_decimal_point_witness :
    ∃ p, SetSingleDigit_HEX_pattern ('b'.toNat ||| 0x80) = some p ∧ p &&& 0x80 = 0x80 ∧
      TM1637_SetSingleDigit_HEX ⟨fun _ => 0⟩ ('b'.toNat ||| 0x80) 0 []
        = some (TM1637_SetSingleDigit ⟨fun _ => 0⟩ p 0 []) :=
  C16_decimal_point_bit_set ⟨fun _ => 0⟩ ('b'.toNat ||| 0x80) 0 [] (by decide)
    (by decide)

set_option maxRecDepth 100000 in
/-- C16 as stated fails: the argument `0x90` has bit 7 set and unrecognized low
bits (16); its pattern is `0x00`, bit 7 clear, and that byte is transmitted. -/
theorem C16_counterexample :
    (0x90 : Nat) &&& 0x80 = 0x80 ∧
    SetSingleDigit_HEX_pattern 0x90 = some 0 ∧
    (0 : Nat) &&& 0x80 = 0 ∧
    (TM1637_SetSingleDigit_HEX ⟨fun _ => 0⟩ 0x90 0 []).map
        (fun r => (frames r.2).map (List.map SentByte.value))
      = some [[0x40], [0xC0, 0x00]] := by
  decide

/-- C17: for every argument of `TM1637_SetSingleDigit_HEX` with bit 7 clear the
pattern is at most `0x7F`, bit 7 clear; every entry of the table is below
`0x80`. -/
theorem C17_no_decimal_point_bit_clear (d : Nat) (hdp : d &&& 0x80 = 0) :
    (∃ p, SetSingleDigit_HEX_pattern d = some p ∧ p ≤ 0x7F ∧ p &&& 0x80 = 0) ∧
    (∀ x ∈ HexTo7Seg, x < 0x80) := by
  have hlow : ∀ p : Nat, p ≤ 0x7F → p &&& 0x80 = 0 := by
    intro p hp
    interval_cases p <;> decide
  refine ⟨?_, by decide⟩
  rcases pattern_cases d with h | h | h | h
  · exact ⟨_, h.2, by rw [hdp]; exact (table_or_0x80 _).2,
      hlow _ (by rw [hdp]; exact (table_or_0x80 _).2)⟩
  · exact ⟨_, h.2.2, by rw [hdp]; exact (table_or_0x80 _).2,
      hlow _ (by rw [hdp]; exact (table_or_0x80 _).2)⟩
  · exact ⟨_, h.2.2, by rw [hdp]; exact (table_or_0x80 _).2,
      hlow _ (by rw [hdp]; exact (table_or_0x80 _).2)⟩
  · exact ⟨0, h.2.2.2, by decide, by decide⟩

/-- C17 witness: the letter `'E'` without the decimal point. -/
theorem C17_no_decimal_point_witness :
    (∃ p, SetSingleDigit_HEX_pattern 'E'.toNat = some p ∧ p ≤ 0x7F ∧ p &&& 0x80 = 0) ∧
    (∀ x ∈ HexTo7Seg, x < 0x80) :=
  C17_no_decimal_point_bit_clear 'E'.toNat (by decide)

/-- C18: for every argument of `TM1637_SetSingleDigit_HEX` whose low seven bits
are neither in 0..15 nor an ASCII letter `'A'..'F'`, `'a'..'f'`, whatever its
bit 7, the pattern is 0, and it is handed to `TM1637_SetSingleDigit` like any
other: for an address below 6, when every byte on the bus is acknowledged, the
pattern byte `0x00` is transmitted after the address command and the result is
`TM1637_OK`. -/
theorem C18_unrecognized_is_blank (H : TM1637_Handler_t) (d a : Nat)
    (h15 : 15 < d &&& 0x7F)
    (hA : ¬ ('A'.toNat ≤ d &&& 0x7F ∧ d &&& 0x7F ≤ 'F'.toNat))
    (ha : ¬ ('a'.toNat ≤ d &&& 0x7F ∧ d &&& 0x7F ≤ 'f'.toNat)) :
    SetSingleDigit_HEX_pattern d = some 0 ∧
    TM1637_SetSingleDigit_HEX H d a [] = some (TM1637_SetSingleDigit H 0 a []) ∧
    (a < 6 →
      (∀ b ∈ (frames (TM1637_SetSingleDigit H 0 a []).2).flatten, b.ack = 0) →
      (frames (TM1637_SetSingleDigit H 0 a []).2).map (List.map SentByte.value)
        = [[0x40], [0xC0 ||| a, 0x00]] ∧
      (TM1637_SetSingleDigit H 0 a []).1 = TM1637_OK) := by
  have hp : SetSingleDigit_HEX_pattern d = some 0 := by
    rcases pattern_cases d with h | h | h | h
    · omega
    · exact absurd ⟨h.1, h.2.1⟩ hA
    · exact absurd ⟨h.1, h.2.1⟩ ha
    · exact h.2.2.2
  refine ⟨hp, ?_, ?_⟩
  · simp only [TM1637_SetSingleDigit_HEX, hp, Option.map_some']
  · intro hlt hack
    rw [SetSingleDigit_eq] at hack ⊢
    obtain ⟨sent, hlen, hv, hfr, hres⟩ := SetMultipleDigit_acked H [0] a 1 hlt hack
    have hc : (if a + 1 > 6 then 6 - a else 1) = 1 := by
      split <;> omega
    rw [hc] at hlen
    rw [hlen] at hv
    refine ⟨?_, hres⟩
    rw [hfr]
    simp only [List.map_cons, List.map_nil, hv]
    rfl

set_option maxRecDepth 100000 in
/-- C18 witness: the argument `'g'` with bit 7 set, address 2, on a bus that
acknowledges. -/
theorem C18_unrecognized_witness :
    SetSingleDigit_HEX_pattern ('g'.toNat ||| 0x80) = some 0 ∧
    TM1637_SetSingleDigit_HEX ⟨fun _ => 0⟩ ('g'.toNat ||| 0x80) 2 []
      = some (TM1637_SetSingleDigit ⟨fun _ => 0⟩ 0 2 []) ∧
    (∀ b ∈ (frames (TM1637_SetSingleDigit ⟨fun _ => 0⟩ 0 2 []).2).flatten, b.ack = 0) ∧
    (frames (TM1637_SetSingleDigit ⟨fun _ => 0⟩ 0 2 []).2).map (List.map SentByte.value)
      = [[0x40], [0xC0 ||| 2, 0x00]] ∧
    (TM1637_SetSingleDigit ⟨fun _ => 0⟩ 0 2 []).1 = TM1637_OK :=
  ⟨(C18_unrecognized_is_blank ⟨fun _ => 0⟩ ('g'.toNat ||| 0x80) 2 (by decide) (by decide)
      (by decide)).1,
   (C18_unrecognized_is_blank ⟨fun _ => 0⟩ ('g'.toNat ||| 0x80) 2 (by decide) (by decide)
      (by decide)).2.1,
   by decide,
   (C18_unrecognized_is_blank ⟨fun _ => 0⟩ ('g'.toNat ||| 0x80) 2 (by decide) (by decide)
      (by decide)).2.2 (by decide) (by decide)⟩

/-- C19: the table has 16 pairwise distinct entries, all below `0x80`; for
every nibble `n` and either decimal-point flag, the pattern of `n` with bit 7
masked off is the table entry of `n`, and `n` is the only nibble with that
entry. -/
theorem C19_table_round_trip (n : Nat) (dp : Bool) (hn : n ≤ 15) :
    HexTo7Seg.length = 16 ∧ HexTo7Seg.Nodup ∧ (∀ x ∈ HexTo7Seg, x < 0x80) ∧
    ∃ p, SetSingleDigit_HEX_pattern (n ||| (if dp then 0x80 else 0)) = some p ∧
      p &&& 0x7F = HexTo7Seg.getD n 0 ∧
      ∀ m, m ≤ 15 → HexTo7Seg.getD m 0 = p &&& 0x7F → m = n := by
  refine ⟨rfl, by decide, by decide, ?_⟩
  have h1 : SetSingleDigit_HEX_pattern (n ||| (if dp then 0x80 else 0))
      = some (HexTo7Seg.getD n 0 ||| (if dp then 0x80 else 0)) := by
    interval_cases n <;> cases dp <;> decide
  have h2 : (HexTo7Seg.getD n 0 ||| (if dp then 0x80 else 0)) &&& 0x7F
      = HexTo7Seg.getD n 0 := by
    interval_cases n <;> cases dp <;> decide
  refine ⟨_, h1, h2, ?_⟩
  intro m hm he
  rw [h2] at he
  interval_cases n <;> interval_cases m <;> first | rfl | (exact absurd he (by decide))

/-- C19 witness: the nibble 11 (`b`) with the decimal point. -/
theorem C19_table_round_trip_witness :
    HexTo7Seg.length = 16 ∧ HexTo7Seg.Nodup ∧ (∀ x ∈ HexTo7Seg, x < 0x80) ∧
    ∃ p, SetSingleDigit_HEX_pattern (11 ||| (if true then 0x80 else 0)) = some p ∧
      p &&& 0x7F = HexTo7Seg.getD 11 0 ∧
      ∀ m, m ≤ 15 → HexTo7Seg.getD m 0 = p &&& 0x7F → m = 11 :=
  C19_table_round_trip 11 true (by decide)

/-! ## Delays -/

theorem delays_append (t es : Trace) : delays (t ++ es) = delays t ++ delays es := by
  simp [delays, List.filterMap_append]

theorem delays_Start (t : Trace) :
    delays (TM1637_StartCommunication t) = delays t ++ [5] := by
  rw [Start_eq_append, delays_append]; rfl

theorem delays_Stop (t : Trace) :
    delays (TM1637_StopCommunication t) = delays t ++ [5, 5] := by
  rw [Stop_eq_append, delays_append]; rfl

theorem delays_byte (H : TM1637_Handler_t) (B : Nat) (t : Trace) :
    delays (WriteBytes_byte H B t).2 = delays t ++ List.replicate 18 5 := by
  rw [byte_trace, bits_eight, List.append_assoc, List.append_assoc, delays_append]
  rfl

theorem delays_loop (H : TM1637_Handler_t) (Data : List Nat) (n : Nat) :
    ∀ (j : Nat) (res : Int) (t : Trace), (∀ u ∈ delays t, u = 5) →
      ∀ u ∈ delays (WriteBytes_loop H Data n j res t).2, u = 5 := by
  induction n with
  | zero => intro j res t h; simpa [WriteBytes_loop] using h
  | succ n ih =>
    intro j res t h
    have hb : ∀ u ∈ delays (WriteBytes_byte H (Data.getD j 0 % 256) t).2, u = 5 := by
      rw [delays_byte]
      intro u hu
      rcases List.mem_append.mp hu with hu | hu
      · exact h u hu
      · exact (List.mem_replicate.mp hu).2
    simp only [WriteBytes_loop]
    split
    · exact hb
    · exact ih _ _ _ hb

theorem WriteBytes_trace (H : TM1637_Handler_t) (Data : List Nat) (n : Nat) (t : Trace) :
    (TM1637_WriteBytes H Data n t).2
      = (WriteBytes_loop H Data n 0 0 t).2 ++ [Event.DelayUs 5] := rfl

theorem delays_WriteBytes (H : TM1637_Handler_t) (Data : List Nat) (n : Nat)
    (t : Trace) (h : ∀ u ∈ delays t, u = 5) :
    ∀ u ∈ delays (TM1637_WriteBytes H Data n t).2, u = 5 := by
  rw [WriteBytes_trace, delays_append]
  intro u hu
  rcases List.mem_append.mp hu with hu | hu
  · exact delays_loop H Data n 0 0 t h u hu
  · simpa [delays] using hu

theorem delays_frame (t : Trace) (h : ∀ u ∈ delays t, u = 5) :
    (∀ u ∈ delays (TM1637_StartCommunication t), u = 5) ∧
    (∀ u ∈ delays (TM1637_StopCommunication t), u = 5) := by
  constructor
  · rw [delays_Start]; intro u hu
    rcases List.mem_append.mp hu with hu | hu
    · exact h u hu
    · simpa using hu
  · rw [delays_Stop]; intro u hu
    rcases List.mem_append.mp hu with hu | hu
    · exact h u hu
    · simpa using hu

theorem delays_SetMultiple (H : TM1637_Handler_t) (P : List Nat) (a c : Nat)
    (t : Trace) (h : ∀ u ∈ delays t, u = 5) :
    ∀ u ∈ delays (TM1637_SetMultipleDisplayRegister H P a c t).2, u = 5 := by
  have h1 : ∀ u ∈ delays (TM1637_StopCommunication
      (TM1637_WriteBytes H [0x40] 1 (TM1637_StartCommunication t)).2), u = 5 :=
    (delays_frame _ (delays_WriteBytes H _ _ _ (delays_frame t h).1)).2
  rcases SetMultiple_trace H P a c t with e | e
  · rw [e]; exact h1
  · rw [e]
    exact (delays_frame _ (delays_WriteBytes H P _ _
      (delays_WriteBytes H _ 1 _ (delays_frame _ h1).1))).2

/-- C21: in every `TM1637_ConfigDisplay`, `TM1637_SetSingleDigit`,
`TM1637_SetMultipleDigit` and `TM1637_SetSingleDigit_HEX` call, whatever the
arguments and the data line do, every `DelayUs` call has the argument 5; every
byte burst `TM1637_WriteBytes` ends with one `DelayUs(5)` call, also when it is
cut short by an unacknowledged byte or carries no byte. -/
theorem C21_fixed_delay (H : TM1637_Handler_t) (p Data : List Nat)
    (a c b s d n : Nat) (t : Trace) :
    (∀ u ∈ delays (TM1637_ConfigDisplay H b s []).2, u = 5) ∧
    (∀ u ∈ delays (TM1637_SetSingleDigit H d a []).2, u = 5) ∧
    (∀ u ∈ delays (TM1637_SetMultipleDigit H p a c []).2, u = 5) ∧
    (∀ r ∈ TM1637_SetSingleDigit_HEX H d a [], ∀ u ∈ delays r.2, u = 5) ∧
    (TM1637_WriteBytes H Data n t).2
      = (WriteBytes_loop H Data n 0 0 t).2 ++ [Event.DelayUs 5] ∧
    (TM1637_WriteBytes H Data n t).2.getLast? = some (Event.DelayUs 5) ∧
    (TM1637_WriteBytes H Data 0 t).2 = t ++ [Event.DelayUs 5] := by
  have h0 : ∀ u ∈ delays [], u = 5 := by simp [delays]
  have hm : ∀ q k, ∀ u ∈ delays (TM1637_SetMultipleDigit H q a k []).2, u = 5 := by
    intro q k
    rw [SetMultipleDigit_trace_eq]
    exact delays_SetMultiple H q a k [] h0
  refine ⟨?_, ?_, hm p c, ?_, rfl, ?_, rfl⟩
  · simp only [TM1637_ConfigDisplay]
    exact (delays_frame _ (delays_WriteBytes H _ _ _ (delays_frame [] h0).1)).2
  · rw [SetSingleDigit_eq]; exact hm _ 1
  · intro r hr
    simp only [TM1637_SetSingleDigit_HEX, Option.mem_def, Option.map_eq_some'] at hr
    obtain ⟨x, _, rfl⟩ := hr
    rw [SetSingleDigit_eq]; exact hm _ 1
  · rw [WriteBytes_trace]; simp

/-! ## The clock level at the data-line writes -/

theorem clockAtWritesFrom_append (a b : Trace) : ∀ m : Monitor,
    clockAtWritesFrom m (a ++ b) =
      clockAtWritesFrom m a ++ clockAtWritesFrom (a.foldl Monitor.step m) b := by
  induction a with
  | nil => intro m; rfl
  | cons e es ih =>
    intro m
    cases e <;> simp [clockAtWritesFrom, ih]

theorem clockAtWrites_append (t es : Trace) :
    clockAtWrites (t ++ es) = clockAtWrites t ++ clockAtWritesFrom (observe t) es := by
  simp [clockAtWrites, clockAtWritesFrom_append, observe]

/-- The data-line writes of one byte transmission, from any state of the bus:
nine writes, all with the clock low. -/
theorem clockAtWritesFrom_byte (m : Monitor) (B a : Nat) :
    clockAtWritesFrom m
      ([Event.DioConfigOut] ++ WriteBytes_bits 8 B [] ++
        [Event.ClkWrite 0, Event.DioConfigIn, Event.DioWrite 1, Event.DelayUs 5,
         Event.DioRead a, Event.ClkWrite 1, Event.DelayUs 5, Event.ClkWrite 0])
      = List.replicate 9 false := by
  rw [bits_eight]
  rfl

theorem clockAtWrites_byte (H : TM1637_Handler_t) (B : Nat) (t : Trace) :
    clockAtWrites (WriteBytes_byte H B t).2 = clockAtWrites t ++ List.replicate 9 false := by
  rw [byte_trace, List.append_assoc, List.append_assoc, clockAtWrites_append,
    ← List.append_assoc, clockAtWritesFrom_byte]

theorem clockAtWrites_loop (H : TM1637_Handler_t) (Data : List Nat) (n : Nat) :
    ∀ (j : Nat) (res : Int) (t : Trace),
      ∃ k, ackReads (WriteBytes_loop H Data n j res t).2 = ackReads t + k ∧
        clockAtWrites (WriteBytes_loop H Data n j res t).2
          = clockAtWrites t ++ List.replicate (9 * k) false := by
  induction n with
  | zero => intro j res t; exact ⟨0, by simp [WriteBytes_loop]⟩
  | succ n ih =>
    intro j res t
    have hr := ackReads_byte H (Data.getD j 0 % 256) t
    have hc := clockAtWrites_byte H (Data.getD j 0 % 256) t
    simp only [WriteBytes_loop]
    split
    · exact ⟨1, hr, by rw [hc]⟩
    · obtain ⟨k, h1, h2⟩ := ih (j + 1) 0 (WriteBytes_byte H (Data.getD j 0 % 256) t).2
      refine ⟨1 + k, by rw [h1, hr]; omega, ?_⟩
      rw [h2, hc, List.append_assoc, Nat.mul_add, Nat.mul_one, List.replicate_add]

theorem clockAtWrites_WriteBytes (H : TM1637_Handler_t) (Data : List Nat) (n : Nat)
    (t : Trace) :
    ∃ k, ackReads (TM1637_WriteBytes H Data n t).2 = ackReads t + k ∧
      clockAtWrites (TM1637_WriteBytes H Data n t).2
        = clockAtWrites t ++ List.replicate (9 * k) false := by
  obtain ⟨k, h1, h2⟩ := clockAtWrites_loop H Data n 0 0 t
  refine ⟨k, ?_, ?_⟩
  · rw [WriteBytes_trace, ackReads_append, h1]; rfl
  · rw [WriteBytes_trace, clockAtWrites_append, h2]; simp [clockAtWritesFrom]

theorem clockAtWrites_Start (t : Trace) (h : (observe t).clk = true) :
    clockAtWrites (TM1637_StartCommunication t) = clockAtWrites t ++ [true, true] := by
  rw [Start_eq_append, clockAtWrites_append]
  generalize observe t = m at h
  rcases m with ⟨clk, dio, nbits, cur, ack, inFrame, bytes, frames⟩
  simp at h
  subst h
  cases dio <;> cases inFrame <;> simp [clockAtWritesFrom, Monitor.step]

theorem clockAtWrites_Stop (t : Trace) :
    clockAtWrites (TM1637_StopCommunication t) = clockAtWrites t ++ [false, true] := by
  rw [Stop_eq_append, clockAtWrites_append]
  generalize observe t = m
  rcases m with ⟨clk, dio, nbits, cur, ack, inFrame, bytes, frames⟩
  by_cases hn : nbits < 8 <;> simp [clockAtWritesFrom, Monitor.step, hn]

theorem ackReads_Start (t : Trace) : ackReads (TM1637_StartCommunication t) = ackReads t := by
  rw [Start_eq_append, ackReads_append]; rfl

theorem ackReads_Stop (t : Trace) : ackReads (TM1637_StopCommunication t) = ackReads t := by
  rw [Stop_eq_append, ackReads_append]; rfl

/-- One frame with a burst of one byte: what the analyser sees and the clock
levels at its data-line writes. -/
theorem frame_one_writes (H : TM1637_Handler_t) (D : Nat) (t : Trace)
    (h : (observe t).isIdle) :
    (observe (TM1637_StopCommunication
      (TM1637_WriteBytes H [D] 1 (TM1637_StartCommunication t)).2)).isIdle ∧
    ∃ f, (observe (TM1637_StopCommunication
        (TM1637_WriteBytes H [D] 1 (TM1637_StartCommunication t)).2)).frames
          = (observe t).frames ++ [f] ∧
      clockAtWrites (TM1637_StopCommunication
        (TM1637_WriteBytes H [D] 1 (TM1637_StartCommunication t)).2)
          = clockAtWrites t ++ frameWriteClocks f.length := by
  obtain ⟨a, _, hidle, hfr, hreads⟩ := frame_one H D t h
  obtain ⟨k, hk, hw⟩ := clockAtWrites_WriteBytes H [D] 1 (TM1637_StartCommunication t)
  rw [ackReads_Stop, hk, ackReads_Start] at hreads
  have hk1 : k = 1 := by omega
  subst hk1
  refine ⟨hidle, _, hfr, ?_⟩
  rw [clockAtWrites_Stop, hw, clockAtWrites_Start t h.1]
  simp [frameWriteClocks]

/-- One frame with a burst of one byte followed by a burst of `n` bytes: what
the analyser sees and the clock levels at its data-line writes. -/
theorem frame_two_writes (H : TM1637_Handler_t) (D : Nat) (P : List Nat) (n : Nat)
    (t : Trace) (h : (observe t).isIdle) :
    (observe (TM1637_StopCommunication (TM1637_WriteBytes H P n
      (TM1637_WriteBytes H [D] 1 (TM1637_StartCommunication t)).2).2)).isIdle ∧
    ∃ f, (observe (TM1637_StopCommunication (TM1637_WriteBytes H P n
        (TM1637_WriteBytes H [D] 1 (TM1637_StartCommunication t)).2).2)).frames
          = (observe t).frames ++ [f] ∧
      clockAtWrites (TM1637_StopCommunication (TM1637_WriteBytes H P n
        (TM1637_WriteBytes H [D] 1 (TM1637_StartCommunication t)).2).2)
          = clockAtWrites t ++ frameWriteClocks f.length := by
  obtain ⟨a, sent, _, _, hidle, hfr, hreads⟩ := frame_two H D P n t h
  obtain ⟨k1, hk1, hw1⟩ := clockAtWrites_WriteBytes H [D] 1 (TM1637_StartCommunication t)
  obtain ⟨k2, hk2, hw2⟩ := clockAtWrites_WriteBytes H P n
    (TM1637_WriteBytes H [D] 1 (TM1637_StartCommunication t)).2
  rw [ackReads_Stop, hk2, hk1, ackReads_Start] at hreads
  have hk : k1 + k2 = 1 + sent.length := by omega
  refine ⟨hidle, _, hfr, ?_⟩
  rw [clockAtWrites_Stop, hw2, hw1, clockAtWrites_Start t h.1]
  have hl : (({ value := D % 256, ack := a } : SentByte) :: sent).length = k1 + k2 := by
    rw [List.length_cons]; omega
  rw [hl, frameWriteClocks, Nat.mul_add, List.replicate_add]
  simp only [List.append_assoc]

/-- C22: inside a byte burst every data-line write (the eight bit writes and
the release write of each byte) is made with the clock low, from any state of
the bus; in a `TM1637_ConfigDisplay` or `TM1637_SetMultipleDigit` call the
clock levels at the data-line writes are, frame by frame, high at the two
writes of START, low at the nine writes of each byte, low and high at the two
writes of STOP, so the clock is high at a data-line write only in START and
STOP. -/
theorem C22_data_written_with_clock_low (H : TM1637_Handler_t) (p Data : List Nat)
    (a c b s n B : Nat) (t : Trace) :
    clockAtWritesFrom (observe t)
      ([Event.DioConfigOut] ++ WriteBytes_bits 8 B [] ++
        [Event.ClkWrite 0, Event.DioConfigIn, Event.DioWrite 1, Event.DelayUs 5,
         Event.DioRead (WriteBytes_byte H B t).1,
         Event.ClkWrite 1, Event.DelayUs 5, Event.ClkWrite 0])
      = List.replicate 9 false ∧
    (∃ k, ackReads (TM1637_WriteBytes H Data n t).2 = ackReads t + k ∧
      clockAtWrites (TM1637_WriteBytes H Data n t).2
        = clockAtWrites t ++ List.replicate (9 * k) false) ∧
    clockAtWrites (TM1637_ConfigDisplay H b s []).2
      = ((frames (TM1637_ConfigDisplay H b s []).2).map
          (fun f => frameWriteClocks f.length)).flatten ∧
    clockAtWrites (TM1637_SetMultipleDigit H p a c []).2
      = ((frames (TM1637_SetMultipleDigit H p a c []).2).map
          (fun f => frameWriteClocks f.length)).flatten := by
  refine ⟨clockAtWritesFrom_byte _ _ _, clockAtWrites_WriteBytes H Data n t, ?_, ?_⟩
  · obtain ⟨_, f, hf, hw⟩ := frame_one_writes H
      ((((DisplayControl ||| (b &&& 0x07)) % 256) |||
        (if s ≠ 0 then ShowTurnOn else ShowTurnOff)) % 256) [] observe_nil_isIdle
    have e : (TM1637_ConfigDisplay H b s []).2 = TM1637_StopCommunication
        (TM1637_WriteBytes H [(((DisplayControl ||| (b &&& 0x07)) % 256) |||
          (if s ≠ 0 then ShowTurnOn else ShowTurnOff)) % 256] 1
          (TM1637_StartCommunication [])).2 := rfl
    rw [e, frames, hf, hw]
    simp [clockAtWrites, clockAtWritesFrom, observe, Monitor.idle]
  · obtain ⟨hidle, f, hf, hw⟩ := frame_one_writes H 0x40 [] observe_nil_isIdle
    rw [SetMultipleDigit_trace_eq]
    rcases SetMultiple_trace H p a c [] with e | e
    · rw [e, frames, hf, hw]
      simp [clockAtWrites, clockAtWritesFrom, observe, Monitor.idle]
    · obtain ⟨_, g, hg, hw2⟩ := frame_two_writes H ((0xC0 ||| a) % 256) p
        (if a + c > 6 then 6 - a else c) _ hidle
      rw [e, frames, hg, hf, hw2, hw]
      simp [clockAtWrites, clockAtWritesFrom, observe, Monitor.idle]

/-- After the calls of STOP the last clock write is high, the last data write
is high and the data pin was last configured as an output. -/
theorem last_after_Stop (t : Trace) :
    lastClkWrite (TM1637_StopCommunication t) = some 1 ∧
    lastDioWrite (TM1637_StopCommunication t) = some 1 ∧
    lastDioConfig (TM1637_StopCommunication t) = some true := by
  rw [Stop_eq_append]
  simp only [lastClkWrite, lastDioWrite, lastDioConfig, List.reverse_append]
  exact ⟨rfl, rfl, rfl⟩

/-- C23: in every `TM1637_ConfigDisplay` and `TM1637_SetMultipleDigit` call,
whatever the arguments and the data line do, each START is followed by a STOP
before the call returns: the calls are START, byte bursts, STOP, once or twice
over, the last calls being those of STOP. The bus is left idle: the analyser is
outside any frame with no byte pending, both lines high; the last clock write
is high, the last data write is high and the data pin was last configured as an
output. -/
theorem C23_frames_balanced_bus_idle (H : TM1637_Handler_t) (p : List Nat)
    (a c b s : Nat) :
    ((∃ D, (TM1637_ConfigDisplay H b s []).2 = TM1637_StopCommunication
        (TM1637_WriteBytes H [D] 1 (TM1637_StartCommunication [])).2) ∧
      (frames (TM1637_ConfigDisplay H b s []).2).length = 1 ∧
      (observe (TM1637_ConfigDisplay H b s []).2).isIdle ∧
      lastClkWrite (TM1637_ConfigDisplay H b s []).2 = some 1 ∧
      lastDioWrite (TM1637_ConfigDisplay H b s []).2 = some 1 ∧
      lastDioConfig (TM1637_ConfigDisplay H b s []).2 = some true) ∧
    (((TM1637_SetMultipleDigit H p a c []).2 =
          TM1637_StopCommunication
            (TM1637_WriteBytes H [0x40] 1 (TM1637_StartCommunication [])).2 ∧
        (frames (TM1637_SetMultipleDigit H p a c []).2).length = 1 ∨
       (TM1637_SetMultipleDigit H p a c []).2 =
          TM1637_StopCommunication
            (TM1637_WriteBytes H p (if a + c > 6 then 6 - a else c)
              (TM1637_WriteBytes H [(0xC0 ||| a) % 256] 1
                (TM1637_StartCommunication (TM1637_StopCommunication
                  (TM1637_WriteBytes H [0x40] 1 (TM1637_StartCommunication [])).2))).2).2 ∧
        (frames (TM1637_SetMultipleDigit H p a c []).2).length = 2) ∧
      (observe (TM1637_SetMultipleDigit H p a c []).2).isIdle ∧
      lastClkWrite (TM1637_SetMultipleDigit H p a c []).2 = some 1 ∧
      lastDioWrite (TM1637_SetMultipleDigit H p a c []).2 = some 1 ∧
      lastDioConfig (TM1637_SetMultipleDigit H p a c []).2 = some true) := by
  constructor
  · obtain ⟨a0, hfr, hidle, _⟩ := ConfigDisplay_spec H b s
    have e : (TM1637_ConfigDisplay H b s []).2 = TM1637_StopCommunication
        (TM1637_WriteBytes H [(((DisplayControl ||| (b &&& 0x07)) % 256) |||
          (if s ≠ 0 then ShowTurnOn else ShowTurnOff)) % 256] 1
          (TM1637_StartCommunication [])).2 := rfl
    refine ⟨⟨_, e⟩, by rw [hfr]; rfl, hidle, ?_⟩
    rw [e]; exact last_after_Stop _
  · obtain ⟨hidle1, f, hf, _⟩ := frame_one_writes H 0x40 [] observe_nil_isIdle
    rw [SetMultipleDigit_trace_eq]
    rcases SetMultiple_trace H p a c [] with e | e
    · refine ⟨Or.inl ⟨e, ?_⟩, ?_, ?_⟩
      · rw [e, frames, hf]; rfl
      · rw [e]; exact hidle1
      · rw [e]; exact last_after_Stop _
    · obtain ⟨hidle2, g, hg, _⟩ := frame_two_writes H ((0xC0 ||| a) % 256) p
        (if a + c > 6 then 6 - a else c) _ hidle1
      refine ⟨Or.inr ⟨e, ?_⟩, ?_, ?_⟩
      · rw [e, frames, hg, hf]; rfl
      · rw [e]; exact hidle2
      · rw [e]; exact last_after_Stop _

/-- C24: for a start address `a ≥ 6`, whatever the count and the data line do,
`TM1637_SetMultipleDigit` puts no address command and no pattern byte on the
bus: there is at most one frame (exactly one), every byte on the bus has the
value `0x40`, none is left outside a frame, and the result is `TM1637_FAIL`. -/
theorem C24_invalid_address_only_data_command (H : TM1637_Handler_t) (p : List Nat)
    (a c : Nat) (ha : 6 ≤ a) :
    (frames (TM1637_SetMultipleDigit H p a c []).2).length = 1 ∧
    (∀ b ∈ (frames (TM1637_SetMultipleDigit H p a c []).2).flatten, b.value = 0x40) ∧
    patternBytes (TM1637_SetMultipleDigit H p a c []).2 = [] ∧
    pending (TM1637_SetMultipleDigit H p a c []).2 = [] ∧
    (TM1637_SetMultipleDigit H p a c []).1 = TM1637_FAIL := by
  obtain ⟨a0, h | h⟩ := SetMultipleDigit_spec H p a c
  · obtain ⟨_, hout, hfr, hidle, _⟩ := h
    refine ⟨by rw [hfr]; rfl, ?_, by rw [patternBytes, hfr]; rfl, hidle.2.2.2.2.2,
      by rw [hout]⟩
    rw [hfr]
    intro b hb
    simp at hb
    rw [hb]
  · omega

set_option maxRecDepth 100000 in
/-- C24 witness: three digits requested at address 7 on a bus that
acknowledges. -/
theorem C24_invalid_address_witness :
    (frames (TM1637_SetMultipleDigit ⟨fun _ => 0⟩ [1, 2, 3] 7 3 []).2).length = 1 ∧
    (∀ b ∈ (frames (TM1637_SetMultipleDigit ⟨fun _ => 0⟩ [1, 2, 3] 7 3 []).2).flatten,
      b.value = 0x40) ∧
    patternBytes (TM1637_SetMultipleDigit ⟨fun _ => 0⟩ [1, 2, 3] 7 3 []).2 = [] ∧
    pending (TM1637_SetMultipleDigit ⟨fun _ => 0⟩ [1, 2, 3] 7 3 []).2 = [] ∧
    (TM1637_SetMultipleDigit ⟨fun _ => 0⟩ [1, 2, 3] 7 3 []).1 = TM1637_FAIL :=
  C24_invalid_address_only_data_command ⟨fun _ => 0⟩ [1, 2, 3] 7 3 (by decide)

/-- C25: `TM1637_SetMultipleDisplayRegister` returns -1, -2 or 0: -1 exactly
when the byte of the first frame is not acknowledged or the start address is at
least 6, -2 exactly when some byte of the second frame is not acknowledged, 0
exactly when the address is below 6 and every byte on the bus is acknowledged.
`TM1637_SetMultipleDigit` and `TM1637_SetSingleDigit` return `TM1637_OK` for 0
and `TM1637_FAIL` for both negative codes. -/
theorem C25_result_codes (H : TM1637_Handler_t) (p : List Nat) (a c d : Nat) :
    ((TM1637_SetMultipleDisplayRegister H p a c []).1 = -1 ∨
      (TM1637_SetMultipleDisplayRegister H p a c []).1 = -2 ∨
      (TM1637_SetMultipleDisplayRegister H p a c []).1 = 0) ∧
    ((TM1637_SetMultipleDisplayRegister H p a c []).1 = -1 ↔
      (∃ b ∈ (frames (TM1637_SetMultipleDisplayRegister H p a c []).2).headD [],
        b.ack ≠ 0) ∨ 6 ≤ a) ∧
    ((TM1637_SetMultipleDisplayRegister H p a c []).1 = -2 ↔
      ∃ b ∈ (frames (TM1637_SetMultipleDisplayRegister H p a c []).2).getD 1 [],
        b.ack ≠ 0) ∧
    ((TM1637_SetMultipleDisplayRegister H p a c []).1 = 0 ↔
      a < 6 ∧ ∀ b ∈ (frames (TM1637_SetMultipleDisplayRegister H p a c []).2).flatten,
        b.ack = 0) ∧
    (TM1637_SetMultipleDigit H p a c []).1 =
      (if (TM1637_SetMultipleDisplayRegister H p a c []).1 = 0 then TM1637_OK
       else TM1637_FAIL) ∧
    (TM1637_SetSingleDigit H d a []).1 =
      (if (TM1637_SetMultipleDisplayRegister H [d] a 1 []).1 = 0 then TM1637_OK
       else TM1637_FAIL) := by
  have hcodes : ∀ q k, (TM1637_SetMultipleDisplayRegister H q a k []).1 = -1 ∨
      (TM1637_SetMultipleDisplayRegister H q a k []).1 = -2 ∨
      (TM1637_SetMultipleDisplayRegister H q a k []).1 = 0 := by
    intro q k
    obtain ⟨a0, h | h⟩ := SetMultiple_spec H q a k
    · left; rw [h.2.1]
    · obtain ⟨_, _, a1, r, sent, _, _, hres, _⟩ := h
      rw [hres]; split
      · right; right; rfl
      · right; left; rfl
  have hwrap : ∀ q k, (TM1637_SetMultipleDigit H q a k []).1 =
      (if (TM1637_SetMultipleDisplayRegister H q a k []).1 = 0 then TM1637_OK
       else TM1637_FAIL) := by
    intro q k
    simp only [TM1637_SetMultipleDigit]
    rcases hcodes q k with e | e | e <;> rw [e] <;> rfl
  refine ⟨hcodes p c, ?_, ?_, ?_, hwrap p c, ?_⟩
  · obtain ⟨a0, h | h⟩ := SetMultiple_spec H p a c
    · obtain ⟨h1, hout, hfr, _⟩ := h
      rw [hfr, hout]
      simp only [true_iff, List.headD_cons]
      rcases h1 with h1 | h1
      · exact Or.inl ⟨⟨0x40, a0⟩, by simp, h1⟩
      · exact Or.inr h1
    · obtain ⟨_, hlt, a1, r, sent, _, hfr, hres, _⟩ := h
      rw [hfr, hres]
      constructor
      · intro h; split at h <;> cases h
      · rintro (⟨b, hb, hne⟩ | h6)
        · simp at hb; subst hb; exact absurd rfl hne
        · omega
  · obtain ⟨a0, h | h⟩ := SetMultiple_spec H p a c
    · obtain ⟨_, hout, hfr, _⟩ := h
      rw [hfr, hout]
      constructor
      · intro h; cases h
      · rintro ⟨b, hb, _⟩; simp at hb
    · obtain ⟨_, _, a1, r, sent, hb, hfr, hres, _⟩ := h
      rw [hfr, hres]
      simp only [List.getD_cons_succ, List.getD_cons_zero]
      rcases hb.result with ⟨e1, _, e3⟩ | ⟨e1, init, last, e2, e3, _⟩
      · by_cases h1 : a1 = 0
        · simp only [h1, e1, and_self, if_true]
          constructor
          · intro h; cases h
          · rintro ⟨b, hb', hne⟩
            rcases List.mem_cons.mp hb' with rfl | hb'
            · exact absurd rfl hne
            · exact absurd (e3 b hb') hne
        · simp only [h1, false_and, if_false, true_iff]
          exact ⟨⟨(0xC0 ||| a) % 256, a1⟩, by simp, h1⟩
      · have hr : ¬ (a1 = 0 ∧ r = 0) := by rw [e1]; simp
        simp only [hr, if_false, true_iff]
        exact ⟨last, by simp [e2], e3⟩
  · obtain ⟨a0, h | h⟩ := SetMultiple_spec H p a c
    · obtain ⟨h1, hout, hfr, _⟩ := h
      rw [hfr, hout]
      constructor
      · intro h; cases h
      · rintro ⟨hlt, hall⟩
        rcases h1 with h1 | h1
        · exact absurd (hall ⟨0x40, a0⟩ (by simp)) h1
        · omega
    · obtain ⟨_, hlt, a1, r, sent, hb, hfr, hres, _⟩ := h
      rw [hfr, hres]
      rcases hb.result with ⟨e1, _, e3⟩ | ⟨e1, init, last, e2, e3, _⟩
      · by_cases h1 : a1 = 0
        · simp only [h1, e1, and_self, if_true, true_iff]
          refine ⟨hlt, ?_⟩
          intro b hb'
          simp at hb'
          rcases hb' with rfl | rfl | hb'
          · rfl
          · rfl
          · exact e3 b hb'
        · simp only [h1, false_and, if_false]
          constructor
          · intro h; cases h
          · rintro ⟨_, hall⟩
            exact absurd (hall ⟨(0xC0 ||| a) % 256, a1⟩ (by simp)) h1
      · have hr : ¬ (a1 = 0 ∧ r = 0) := by rw [e1]; simp
        simp only [hr, if_false]
        constructor
        · intro h; cases h
        · rintro ⟨_, hall⟩
          exact absurd (hall last (by simp [e2])) e3
  · rw [SetSingleDigit_eq]; exact hwrap [d] 1

end TM1637

namespace MAX7219

/-! ## The number display -/

/-- The digit loop of `MAX7219_displayNumber` on a fresh record, by the number
of decimal digits of the magnitude. -/
theorem displayNumber_digits_spec (m : Nat) (hm : m < 10000) :
    displayNumber_digits DIGITS_IN_USE 0 m [] =
      if m < 10 then (1, [(1, m % 10)])
      else if m < 100 then (2, [(1, m % 10), (2, m / 10 % 10)])
      else if m < 1000 then (3, [(1, m % 10), (2, m / 10 % 10), (3, m / 100 % 10)])
      else (4, [(1, m % 10), (2, m / 10 % 10), (3, m / 100 % 10), (4, m / 1000 % 10)]) := by
  simp only [DIGITS_IN_USE, displayNumber_digits, MAX7219_writeData, List.nil_append,
    List.cons_append, Nat.div_div_eq_div_mul]
  by_cases h1 : m < 10
  · have : m / 10 = 0 := by omega
    simp [h1, this]
  · by_cases h2 : m < 100
    · have e1 : m / 10 ≠ 0 := by omega
      have e2 : m / 100 = 0 := by omega
      simp [h1, h2, e1, e2]
    · by_cases h3 : m < 1000
      · have e1 : m / 10 ≠ 0 := by omega
        have e2 : m / 100 ≠ 0 := by omega
        have e3 : m / 1000 = 0 := by omega
        simp [h1, h2, h3, e1, e2, e3]
      · have e1 : m / 10 ≠ 0 := by omega
        have e2 : m / 100 ≠ 0 := by omega
        have e3 : m / 1000 ≠ 0 := by omega
        simp [h1, h2, h3, e1, e2, e3]

/-- C20: for every signed `n` whose magnitude has `k ≤ 4` decimal digits (one
digit for 0), `MAX7219_displayNumber` leaves the decimal digits of `|n|` as raw
values in registers 1..k, least significant first; when `n < 0` register
`k + 1` holds the negative-sign code `0xA`; every position above, up to the
fourth, holds the blank code `0xF`. For 0 the writes are a zero digit and three
blanks; for -5 they are 5, the sign code next to it, and two blanks. -/
theorem C20_displayNumber (n : Int) (k : Nat) (hk1 : 1 ≤ k) (hk4 : k ≤ 4)
    (hlt : n.natAbs < 10 ^ k) (hge : k = 1 ∨ 10 ^ (k - 1) ≤ n.natAbs) :
    (∀ i, i < k → registerValue (MAX7219_displayNumber n []) (i + 1)
      = some (n.natAbs / 10 ^ i % 10)) ∧
    (n < 0 → registerValue (MAX7219_displayNumber n []) (k + 1) = some 0xA) ∧
    (∀ j, k + (if n < 0 then 1 else 0) < j → j ≤ 4 →
      registerValue (MAX7219_displayNumber n []) j = some 0xF) ∧
    MAX7219_displayNumber 0 [] = [(1, 0), (2, 0xF), (3, 0xF), (4, 0xF)] ∧
    MAX7219_displayNumber (-5) [] = [(1, 5), (2, 0xA), (3, 0xF), (4, 0xF)] := by
  have hm4 : n.natAbs < 10000 := by
    have : (10 : Nat) ^ k ≤ 10 ^ 4 := Nat.pow_le_pow_right (by decide) hk4
    omega
  have hd : displayNumber_digits 4 0 n.natAbs [] = _ :=
    displayNumber_digits_spec n.natAbs hm4
  refine ⟨?_, ?_, ?_, by decide, by decide⟩
  · intro i hi
    interval_cases k <;> simp at hlt hge <;> split_ifs at hd <;> (try omega) <;>
      by_cases hneg : n < 0 <;> interval_cases i <;>
      simp [MAX7219_displayNumber, hd, hneg, displayNumber_pad, MAX7219_writeData,
        DIGITS_IN_USE, MAX7219_CHAR_BLANK, MAX7219_CHAR_NEGATIVE,
        registerValue]
  · intro hneg
    interval_cases k <;> simp at hlt hge <;> split_ifs at hd <;> (try omega) <;>
      simp [MAX7219_displayNumber, hd, hneg, displayNumber_pad, MAX7219_writeData,
        DIGITS_IN_USE, MAX7219_CHAR_BLANK, MAX7219_CHAR_NEGATIVE,
        registerValue]
  · intro j hj hj4
    interval_cases k <;> simp at hlt hge <;> split_ifs at hd <;> (try omega) <;>
      by_cases hneg : n < 0 <;>
      simp only [hneg, if_true, if_false] at hj <;>
      interval_cases j <;>
      simp [MAX7219_displayNumber, hd, hneg, displayNumber_pad, MAX7219_writeData,
        DIGITS_IN_USE, MAX7219_CHAR_BLANK, MAX7219_CHAR_NEGATIVE,
        registerValue]

/-- C20 witness: the number -5, one digit. -/
theorem C20_displayNumber_witness :
    (∀ i, i < 1 → registerValue (MAX7219_displayNumber (-5) []) (i + 1)
      = some ((-5 : Int).natAbs / 10 ^ i % 10)) ∧
    ((-5 : Int) < 0 → registerValue (MAX7219_displayNumber (-5) []) (1 + 1) = some 0xA) ∧
    (∀ j, 1 + (if (-5 : Int) < 0 then 1 else 0) < j → j ≤ 4 →
      registerValue (MAX7219_displayNumber (-5) []) j = some 0xF) ∧
    MAX7219_displayNumber 0 [] = [(1, 0), (2, 0xF), (3, 0xF), (4, 0xF)] ∧
    MAX7219_displayNumber (-5) [] = [(1, 5), (2, 0xA), (3, 0xF), (4, 0xF)] :=
  C20_displayNumber (-5) 1 (by decide) (by decide) (by decide) (by decide)

end MAX7219
